import Mathlib

/-!
OLED framebuffer driver (`Project/bsp/oled/oled.c`).

A shallow embedding of the driver: the pixel store `OLED_GRAM`, the bit-region writers
(`OLED_SetPixel`, `OLED_SetByte_Fine`, `OLED_SetBits_Fine`, `OLED_SetBits`,
`OLED_SetBlock`), the rasterisers for lines, rectangles, circles and filled triangles, the
frame transfer `OLED_ShowFrame`, and the text renderer `OLED_PrintString`.

Conventions of the embedding.

* A `uint8_t` value is a natural number below 256.  Where the C code passes
  an `int` expression to a `uint8_t` parameter, or stores one into a
  `uint8_t` object, the embedding writes the truncation `% 256` at that
  place; the `uint16_t` string index is kept modulo 65536.
* The global `uint8_t OLED_GRAM[8][128]` is threaded through every function
  as an explicit state of type `GRAM` (a map page → column → byte).  Every
  store of the C code sits behind the bounds test of its function, so no store
  outside `[0,8) × [0,128)` is ever produced.
* A `const uint8_t *` argument is the map from offsets to the bytes found
  there; a C string is the list of its bytes before the terminator.
* Loops whose exit depends on a wrapping counter take fuel; they return
  `none` when the fuel runs out.  A call that may divide returns a `Run`.
* The bus is a list of the messages handed to `OLED_Send`.
-/

namespace OLED

/-! ## Data model -/

/-- Modelled from the spec: the enum `OLED_ColorMode` of `oled.h`, which is
not part of the sources at hand.  It is the two-valued colour mode
(normal/reversed) of the spec; `OLED_COLOR_NORMAL` is the value `0`, the one
for which the test `!color` of `OLED_SetPixel` succeeds. -/
inductive OLED_ColorMode where
  | OLED_COLOR_NORMAL : OLED_ColorMode
  | OLED_COLOR_REVERSED : OLED_ColorMode
deriving DecidableEq

open OLED_ColorMode

/-- The integer value of a colour mode, as tested by `if (color)`. -/
def OLED_ColorMode.val : OLED_ColorMode → Nat
  | OLED_COLOR_NORMAL => 0
  | OLED_COLOR_REVERSED => 1

/-- Number of pages, `#define OLED_PAGE 8`. -/
def OLED_PAGE : Nat := 8

/-- Number of pixel rows, `#define OLED_ROW 8 * OLED_PAGE`; the macro is used only as
`y >= OLED_ROW`, which reads `y >= 8 * 8`. -/
def OLED_ROW : Nat := 8 * OLED_PAGE

/-- Number of columns, `#define OLED_COLUMN 128`. -/
def OLED_COLUMN : Nat := 128

/-- The framebuffer `uint8_t OLED_GRAM[OLED_PAGE][OLED_COLUMN]`: the byte at
page `p`, column `c` is `g p c`. -/
abbrev GRAM := Nat → Nat → Nat

/-- The assignment `OLED_GRAM[page][column] = v`. -/
def store (g : GRAM) (page column v : Nat) : GRAM :=
  fun p c => if p = page ∧ c = column then v else g p c

/-- The pixel at `(x, y)`: bit `y % 8` of the byte at page `y / 8`, column `x`. -/
def pixel (g : GRAM) (x y : Nat) : Bool :=
  (g (y / 8) x).testBit (y % 8)

/-- The low 8 bits of the C expression `~v`.  Every use of `~` in the driver
ends in a `uint8_t` object after `&` and `|` with other operands, and the low
8 bits of such a result are those of the same expression over the low 8 bits of
its operands. -/
def not8 (v : Nat) : Nat := 255 ^^^ (v % 256)

/-- The cleared framebuffer left by `OLED_NewFrame`:
`memset(OLED_GRAM, 0, sizeof(OLED_GRAM))`. -/
def OLED_NewFrame : GRAM := fun _ _ => 0

/-! ## Pixel store and bit-region writer -/

/-- Function `OLED_SetPixel(x, y, color)`.  `1 << (y % 8)` is below 256, and the result of
`|=` and `&=` is stored into a `uint8_t`. -/
def OLED_SetPixel (x y : Nat) (color : OLED_ColorMode) (g : GRAM) : GRAM :=
  if x ≥ OLED_COLUMN ∨ y ≥ OLED_ROW then g
  else if color.val = 0 then
    store g (y / 8) x ((g (y / 8) x ||| (1 <<< (y % 8))) % 256)
  else
    store g (y / 8) x ((g (y / 8) x &&& not8 (1 <<< (y % 8))) % 256)

/-- Function `OLED_SetByte_Fine(page, column, data, start, end, color)`.  The two
assignments to the `uint8_t` variable `temp` are kept as in the source; `8 - start` is the
C value for `start ≤ 8` (the source asks for `start ≤ end ≤ 7`). -/
def OLED_SetByte_Fine (page column data start end_ : Nat) (color : OLED_ColorMode)
    (g : GRAM) : GRAM :=
  if page ≥ OLED_PAGE ∨ column ≥ OLED_COLUMN then g
  else
    let data := if color.val ≠ 0 then not8 data else data
    let temp := (data ||| (0xff <<< (end_ + 1)) ||| (0xff >>> (8 - start))) % 256
    let g1 := store g page column ((g page column &&& temp) % 256)
    let temp := (data &&& not8 (0xff <<< (end_ + 1)) &&& not8 (0xff >>> (8 - start))) % 256
    store g1 page column ((g1 page column ||| temp) % 256)

/-- Function `OLED_SetByte(page, column, data, color)`. -/
def OLED_SetByte (page column data : Nat) (color : OLED_ColorMode) (g : GRAM) : GRAM :=
  if page ≥ OLED_PAGE ∨ column ≥ OLED_COLUMN then g
  else
    let data := if color.val ≠ 0 then not8 data else data
    store g page column data

/-- Function `OLED_SetBits_Fine(x, y, data, len, color)`.  The `uint8_t` arguments
`end = len + bit - 1 - 8` and `end = bit + len - 1` are written modulo 256. -/
def OLED_SetBits_Fine (x y data len : Nat) (color : OLED_ColorMode) (g : GRAM) : GRAM :=
  let page := y / 8
  let bit := y % 8
  if bit + len > 8 then
    let g := OLED_SetByte_Fine page x ((data <<< bit) % 256) bit 7 color g
    OLED_SetByte_Fine ((page + 1) % 256) x ((data >>> (8 - bit)) % 256) 0
      ((len + bit + 247) % 256) color g
  else
    OLED_SetByte_Fine page x ((data <<< bit) % 256) bit ((bit + len + 255) % 256) color g

/-- Function `OLED_SetBits(x, y, data, color)`. -/
def OLED_SetBits (x y data : Nat) (color : OLED_ColorMode) (g : GRAM) : GRAM :=
  let page := y / 8
  let bit := y % 8
  let g := OLED_SetByte_Fine page x ((data <<< bit) % 256) bit 7 color g
  if bit ≠ 0 then
    OLED_SetByte_Fine ((page + 1) % 256) x ((data >>> (8 - bit)) % 256) 0 (bit - 1) color g
  else g

/-- The loop `for (uint8_t i = 0; i < n; i++) body(i)` for `n ≤ 255`: the
body runs for `i = 0, 1, ..., n - 1` in this order. -/
def forRange (n : Nat) (body : Nat → GRAM → GRAM) (g : GRAM) : GRAM :=
  match n with
  | 0 => g
  | k + 1 => body k (forRange k body g)

/-- Function `OLED_SetBlock(x, y, data, w, h, color)`.  `data k` is the byte `data[k]`;
`fullNum` is a `uint16_t`. -/
def OLED_SetBlock (x y : Nat) (data : Nat → Nat) (w h : Nat) (color : OLED_ColorMode)
    (g : GRAM) : GRAM :=
  let fullRow := h / 8
  let partBit := h % 8
  let g := forRange w (fun i g =>
    forRange fullRow (fun j g =>
      OLED_SetBits ((x + i) % 256) ((y + j * 8) % 256) (data (i + j * w) % 256) color g) g) g
  if partBit ≠ 0 then
    let fullNum := (w * fullRow) % 65536
    forRange w (fun i g =>
      OLED_SetBits_Fine ((x + i) % 256) ((y + fullRow * 8) % 256)
        (data (fullNum + i) % 256) partBit color g) g
  else g

/-! ## Lines and rectangles -/

/-- Fuel of the loops of `OLED_DrawLine`.  Each loop is left by a test on one counter of at
most 16 bits that moves by one step per iteration, so a loop that has not ended after
65536 tests never ends. -/
def loopFuel : Nat := 65536

/-- The loop `for (uint8_t y = y1; y <= y2; y++) OLED_SetPixel(x1, y, color);` of
`OLED_DrawLine`; `y++` wraps at 256. -/
def lineLoopV (fuel x y y2 : Nat) (color : OLED_ColorMode) (g : GRAM) : Option GRAM :=
  match fuel with
  | 0 => none
  | f + 1 =>
    if y ≤ y2 then lineLoopV f x ((y + 1) % 256) y2 color (OLED_SetPixel x y color g)
    else some g

/-- The loop `for (uint8_t x = x1; x <= x2; x++) OLED_SetPixel(x, y1, color);` of
`OLED_DrawLine`; `x++` wraps at 256. -/
def lineLoopH (fuel x x2 y : Nat) (color : OLED_ColorMode) (g : GRAM) : Option GRAM :=
  match fuel with
  | 0 => none
  | f + 1 =>
    if x ≤ x2 then lineLoopH f ((x + 1) % 256) x2 y color (OLED_SetPixel x y color g)
    else some g

/-- The loop of `OLED_DrawLine` for `dx > dy`:
`for (x = x1; x != x2; x += ux) { OLED_SetPixel(x, y, color); eps += dy;
if ((eps << 1) >= dx) { y += uy; eps -= dx; } }`.
The `int16_t` variables are integers: for 8-bit end points they stay within `[-510, 510]`;
`eps << 1` is `eps * 2`.
`OLED_SetPixel` receives `x` and `y` as `uint8_t`. -/
def lineLoopX (fuel : Nat) (x2 dx dy ux uy : Int) (color : OLED_ColorMode)
    (x y eps : Int) (g : GRAM) : Option GRAM :=
  match fuel with
  | 0 => none
  | f + 1 =>
    if x ≠ x2 then
      let g := OLED_SetPixel (x % 256).toNat (y % 256).toNat color g
      let eps := eps + dy
      if eps * 2 ≥ dx then lineLoopX f x2 dx dy ux uy color (x + ux) (y + uy) (eps - dx) g
      else lineLoopX f x2 dx dy ux uy color (x + ux) y eps g
    else some g

/-- The loop of `OLED_DrawLine` for `dx ≤ dy`:
`for (y = y1; y != y2; y += uy) { OLED_SetPixel(x, y, color); eps += dx;
if ((eps << 1) >= dy) { x += ux; eps -= dy; } }`. -/
def lineLoopY (fuel : Nat) (y2 dx dy ux uy : Int) (color : OLED_ColorMode)
    (x y eps : Int) (g : GRAM) : Option GRAM :=
  match fuel with
  | 0 => none
  | f + 1 =>
    if y ≠ y2 then
      let g := OLED_SetPixel (x % 256).toNat (y % 256).toNat color g
      let eps := eps + dx
      if eps * 2 ≥ dy then lineLoopY f y2 dx dy ux uy color (x + ux) (y + uy) (eps - dy) g
      else lineLoopY f y2 dx dy ux uy color x (y + uy) eps g
    else some g

/-- Function `OLED_DrawLine(x1, y1, x2, y2, color)`.  `abs` is the macro
`#define abs(x) x < 0 ? (-x) : x` of the source, used only as `dx = abs(dx)`. -/
def OLED_DrawLine (x1 y1 x2 y2 : Nat) (color : OLED_ColorMode) (g : GRAM) : Option GRAM :=
  if x1 = x2 then
    let ya := if y1 > y2 then y2 else y1
    let yb := if y1 > y2 then y1 else y2
    lineLoopV loopFuel x1 ya yb color g
  else if y1 = y2 then
    let xa := if x1 > x2 then x2 else x1
    let xb := if x1 > x2 then x1 else x2
    lineLoopH loopFuel xa xb y1 color g
  else
    let dx : Int := (x2 : Int) - (x1 : Int)
    let dy : Int := (y2 : Int) - (y1 : Int)
    let ux : Int := (if dx > 0 then 1 else 0) * 2 - 1
    let uy : Int := (if dy > 0 then 1 else 0) * 2 - 1
    let dx := if dx < 0 then -dx else dx
    let dy := if dy < 0 then -dy else dy
    if dx > dy then lineLoopX loopFuel x2 dx dy ux uy color x1 y1 0 g
    else lineLoopY loopFuel y2 dx dy ux uy color x1 y1 0 g

/-- Function `OLED_DrawRectangle(x, y, w, h, color)`; the sums are passed as `uint8_t`. -/
def OLED_DrawRectangle (x y w h : Nat) (color : OLED_ColorMode) (g : GRAM) : Option GRAM :=
  (OLED_DrawLine x y ((x + w) % 256) y color g).bind fun g =>
  (OLED_DrawLine x ((y + h) % 256) ((x + w) % 256) ((y + h) % 256) color g).bind fun g =>
  (OLED_DrawLine x y x ((y + h) % 256) color g).bind fun g =>
  OLED_DrawLine ((x + w) % 256) y ((x + w) % 256) ((y + h) % 256) color g

/-- The loop `for (uint8_t i = 0; i < n; i++) body(i)` for `n ≤ 255`, with a body that may
fail to return. -/
def forRangeM (n : Nat) (body : Nat → GRAM → Option GRAM) (g : GRAM) : Option GRAM :=
  match n with
  | 0 => some g
  | k + 1 => (forRangeM k body g).bind (body k)

/-- Function `OLED_DrawFilledRectangle(x, y, w, h, color)`; `x + w - 1` and `y + i` are
passed as `uint8_t`. -/
def OLED_DrawFilledRectangle (x y w h : Nat) (color : OLED_ColorMode) (g : GRAM) :
    Option GRAM :=
  forRangeM h (fun i g =>
    OLED_DrawLine x ((y + i) % 256) ((x + w + 255) % 256) ((y + i) % 256) color g) g

/-- The value `OLED_SetBlock` gives to pixel `(px, py)` of the block at `(x, y)`: bit
`(py - y) % 8` of the byte `data[(px - x) + ((py - y) / 8) * w]`, inverted in reversed
mode. -/
def blockBit (x y : Nat) (data : Nat → Nat) (w : Nat) (color : OLED_ColorMode)
    (px py : Nat) : Bool :=
  ((data ((px - x) + ((py - y) / 8) * w)).testBit ((py - y) % 8)
    != decide (color = OLED_COLOR_REVERSED))

/-- The per-pixel loop that the source keeps as a comment at the end of
`OLED_SetBits_Fine`,
`for (i = 0; i < len; i++) OLED_SetPixel(x, y + i, !((data >> i) & 0x01));`,
with the colour mode applied to the data bit: the reference the bit-run writer
is compared with. -/
def OLED_SetBits_Fine_ref (x y data len : Nat) (color : OLED_ColorMode) (g : GRAM) : GRAM :=
  forRange len (fun i g =>
    OLED_SetPixel x ((y + i) % 256)
      (if (data.testBit i != decide (color = OLED_COLOR_REVERSED)) then OLED_COLOR_NORMAL
        else OLED_COLOR_REVERSED) g) g

/-! ## Circles and filled triangles -/

/-- The value an `int` expression has once it is passed to a `uint8_t` parameter. -/
def toU8 (v : Int) : Nat := (v % 256).toNat

/-- The loop `while (a <= b) { ... }` of `OLED_DrawCircle`: nine calls of `OLED_SetPixel`
in the order of the source, the update of `a`, `di` and `b`, and the tenth call
`OLED_SetPixel(x + a, y + b, color)` made after the update.  The `int16_t` variables are
integers (for `r ≤ 255` they stay within `[-2000, 2000]`). -/
def circleLoop (fuel : Nat) (x y : Nat) (color : OLED_ColorMode) (a b di : Int) (g : GRAM) :
    Option GRAM :=
  match fuel with
  | 0 => none
  | f + 1 =>
    if a ≤ b then
      let g := OLED_SetPixel (toU8 (x - b)) (toU8 (y - a)) color g
      let g := OLED_SetPixel (toU8 (x + b)) (toU8 (y - a)) color g
      let g := OLED_SetPixel (toU8 (x - a)) (toU8 (y + b)) color g
      let g := OLED_SetPixel (toU8 (x - b)) (toU8 (y - a)) color g
      let g := OLED_SetPixel (toU8 (x - a)) (toU8 (y - b)) color g
      let g := OLED_SetPixel (toU8 (x + b)) (toU8 (y + a)) color g
      let g := OLED_SetPixel (toU8 (x + a)) (toU8 (y - b)) color g
      let g := OLED_SetPixel (toU8 (x + a)) (toU8 (y + b)) color g
      let g := OLED_SetPixel (toU8 (x - b)) (toU8 (y + a)) color g
      let a := a + 1
      let di1 := if di < 0 then di + (4 * a + 6) else di + (10 + 4 * (a - b))
      let b := if di < 0 then b else b - 1
      let g := OLED_SetPixel (toU8 (x + a)) (toU8 (y + b)) color g
      circleLoop f x y color a b di1 g
    else some g

/-- Function `OLED_DrawCircle(x, y, r, color)`:
`int16_t a = 0, b = r, di = 3 - (r << 1);` followed by the loop. -/
def OLED_DrawCircle (x y r : Nat) (color : OLED_ColorMode) (g : GRAM) : Option GRAM :=
  circleLoop loopFuel x y color 0 (r : Int) (3 - (r : Int) * 2) g

/-- The loop `for (int16_t i = lo; i <= hi; i++) { OLED_SetPixel(i, ya, color);
OLED_SetPixel(i, yb, color); }` of `OLED_DrawFilledCircle`, with `n` iterations left. -/
def spanLoop (n : Nat) (i : Int) (ya yb : Int) (color : OLED_ColorMode) (g : GRAM) : GRAM :=
  match n with
  | 0 => g
  | k + 1 =>
    spanLoop k (i + 1) ya yb color
      (OLED_SetPixel (toU8 i) (toU8 yb) color (OLED_SetPixel (toU8 i) (toU8 ya) color g))

/-- The loop `while (a <= b) { ... }` of `OLED_DrawFilledCircle`: the span
`x - b .. x + b` on the rows `y + a` and `y - a`, the span `x - a .. x + a` on the rows
`y + b` and `y - b`, then the update of `a`, `di` and `b`.  A span from `lo` to `hi` has
`hi + 1 - lo` iterations (none when `hi < lo`). -/
def filledCircleLoop (fuel : Nat) (x y : Nat) (color : OLED_ColorMode) (a b di : Int)
    (g : GRAM) : Option GRAM :=
  match fuel with
  | 0 => none
  | f + 1 =>
    if a ≤ b then
      let g := spanLoop (((x : Int) + b + 1 - ((x : Int) - b)).toNat) ((x : Int) - b)
        ((y : Int) + a) ((y : Int) - a) color g
      let g := spanLoop (((x : Int) + a + 1 - ((x : Int) - a)).toNat) ((x : Int) - a)
        ((y : Int) + b) ((y : Int) - b) color g
      let a := a + 1
      let di1 := if di < 0 then di + (4 * a + 6) else di + (10 + 4 * (a - b))
      let b := if di < 0 then b else b - 1
      filledCircleLoop f x y color a b di1 g
    else some g

/-- Function `OLED_DrawFilledCircle(x, y, r, color)`. -/
def OLED_DrawFilledCircle (x y r : Nat) (color : OLED_ColorMode) (g : GRAM) : Option GRAM :=
  filledCircleLoop loopFuel x y color 0 (r : Int) (3 - (r : Int) * 2) g

/-- Outcome of a drawing call that may divide: it returns with a value, or it evaluates a
division whose divisor is zero, or it never returns. -/
inductive Run (α : Type) where
  | ok : α → Run α
  | divisionByZero : Run α
  | noReturn : Run α

/-- Test for the outcome "a division by zero was evaluated". -/
def Run.isDivisionByZero {α : Type} : Run α → Bool
  | Run.divisionByZero => true
  | _ => false

/-- Test for the outcome "the call returned". -/
def Run.isOk {α : Type} : Run α → Bool
  | Run.ok _ => true
  | _ => false

/-- The C expression `p + n / d` on `int` operands, passed to a `uint8_t` parameter: the
division truncates towards zero, and a zero divisor is reported. -/
def edgeX (p n d : Int) : Run Nat :=
  if d = 0 then Run.divisionByZero else Run.ok (toU8 (p + Int.tdiv n d))

/-- A call of `OLED_DrawLine` inside `OLED_DrawFilledTriangle`, both `x` arguments being
quotients. -/
def triLine (xa xb : Run Nat) (y : Nat) (color : OLED_ColorMode) (g : GRAM) : Run GRAM :=
  match xa, xb with
  | Run.ok a, Run.ok b =>
    match OLED_DrawLine a y b y color g with
    | some g1 => Run.ok g1
    | none => Run.noReturn
  | Run.noReturn, _ => Run.noReturn
  | _, Run.noReturn => Run.noReturn
  | _, _ => Run.divisionByZero

/-- The first loop of `OLED_DrawFilledTriangle`,
`for (; y <= b; y++) { if (y <= y3) OLED_DrawLine(x1 + (y - y1) * (x2 - x1) / (y2 - y1), y,
x1 + (y - y1) * (x3 - x1) / (y3 - y1), y, color); else { last = y - 1; break; } }`.
It returns the values of `y` and `last` and the framebuffer at its exit. -/
def triLoop1 (fuel : Nat) (x1 y1 x2 y2 x3 y3 b : Nat) (color : OLED_ColorMode)
    (y last : Nat) (g : GRAM) : Run (Nat × Nat × GRAM) :=
  match fuel with
  | 0 => Run.noReturn
  | f + 1 =>
    if y ≤ b then
      if y ≤ y3 then
        match triLine
            (edgeX x1 (((y : Int) - y1) * ((x2 : Int) - x1)) ((y2 : Int) - y1))
            (edgeX x1 (((y : Int) - y1) * ((x3 : Int) - x1)) ((y3 : Int) - y1))
            y color g with
        | Run.ok g1 => triLoop1 f x1 y1 x2 y2 x3 y3 b color ((y + 1) % 256) last g1
        | Run.divisionByZero => Run.divisionByZero
        | Run.noReturn => Run.noReturn
      else Run.ok (y, (y + 255) % 256, g)
    else Run.ok (y, last, g)

/-- The second loop of `OLED_DrawFilledTriangle`,
`for (; y <= b; y++) OLED_DrawLine(x2 + (y - y2) * (x3 - x2) / (y3 - y2), y,
x1 + (y - last) * (x3 - x1) / (y3 - last), y, color);`. -/
def triLoop2 (fuel : Nat) (x1 x2 y2 x3 y3 b last : Nat) (color : OLED_ColorMode)
    (y : Nat) (g : GRAM) : Run GRAM :=
  match fuel with
  | 0 => Run.noReturn
  | f + 1 =>
    if y ≤ b then
      match triLine
          (edgeX x2 (((y : Int) - y2) * ((x3 : Int) - x2)) ((y3 : Int) - y2))
          (edgeX x1 (((y : Int) - last) * ((x3 : Int) - x1)) ((y3 : Int) - last))
          y color g with
      | Run.ok g1 => triLoop2 f x1 x2 y2 x3 y3 b last color ((y + 1) % 256) g1
      | Run.divisionByZero => Run.divisionByZero
      | Run.noReturn => Run.noReturn
    else Run.ok g

/-- Function `OLED_DrawFilledTriangle(x1, y1, x2, y2, x3, y3, color)`. -/
def OLED_DrawFilledTriangle (x1 y1 x2 y2 x3 y3 : Nat) (color : OLED_ColorMode) (g : GRAM) :
    Run GRAM :=
  let a := if y1 > y2 then y2 else y1
  let b := if y1 > y2 then y1 else y2
  match triLoop1 loopFuel x1 y1 x2 y2 x3 y3 b color a 0 g with
  | Run.ok (y, last, g1) => triLoop2 loopFuel x1 x2 y2 x3 y3 b last color y g1
  | Run.divisionByZero => Run.divisionByZero
  | Run.noReturn => Run.noReturn

/-! ## Sending the frame -/

/-- Modelled from the spec: the transport capability `send(bytes)`, "push an opaque byte
sequence to the device".  `OLED_Send(data, len)` hands the first `len` bytes of `data` to
the bus functions of `bsp_i2c`, which are not part of the sources at hand; the model appends
that message to the list of the messages sent so far. -/
def OLED_Send (data : List Nat) (len : Nat) (sent : List (List Nat)) : List (List Nat) :=
  sent ++ [data.take len]

/-- Function `OLED_SendCmd(cmd)`: `sendBuffer` is `{0, cmd}` and two bytes are sent. -/
def OLED_SendCmd (cmd : Nat) (sent : List (List Nat)) : List (List Nat) :=
  OLED_Send [0, cmd] 2 sent

/-- Function `OLED_PageSet(page)`. -/
def OLED_PageSet (page : Nat) (sent : List (List Nat)) : List (List Nat) :=
  OLED_SendCmd ((0xb0 + page) % 256) sent

/-- The macro `#define OLED_COLUMN_OFFSET 2`. -/
def OLED_COLUMN_OFFSET : Nat := 2

/-- Function `OLED_SetColumn(column)`. -/
def OLED_SetColumn (column : Nat) (sent : List (List Nat)) : List (List Nat) :=
  let column := (column + OLED_COLUMN_OFFSET) % 256
  let sent := OLED_SendCmd ((0x10 ||| (column >>> 4)) % 256) sent
  OLED_SendCmd ((0x00 ||| (column &&& 0x0F)) % 256) sent

/-- The first `n` iterations of the loop `for (uint8_t i = 0; i < OLED_PAGE; i++)` of
`OLED_ShowFrame`: page select, column select, `memcpy` of the page behind the byte `0x40`,
and the send of `OLED_COLUMN + 1` bytes. -/
def showFramePages (n : Nat) (g : GRAM) (sent : List (List Nat)) : List (List Nat) :=
  match n with
  | 0 => sent
  | i + 1 =>
    let sent := showFramePages i g sent
    let sent := OLED_PageSet i sent
    let sent := OLED_SetColumn 0 sent
    let sendBuffer := 0x40 :: (List.range OLED_COLUMN).map (fun c => g i c)
    OLED_Send sendBuffer ((OLED_COLUMN + 1) % 256) sent

/-- Function `OLED_ShowFrame()`: the framebuffer after the call and the messages sent. -/
def OLED_ShowFrame (g : GRAM) (sent : List (List Nat)) : GRAM × List (List Nat) :=
  (g, showFramePages OLED_PAGE g sent)

/-- The four messages the device protocol asks for page `i`: page select `0xB0 + i`, column
select for column 0 plus the offset 2 (high nibble `0x10`, low nibble `0x02`), each behind
the control byte `0x00`, and the data frame `0x40` followed by the 128 bytes of the page. -/
def pageMessages (g : GRAM) (i : Nat) : List (List Nat) :=
  [[0x00, 0xB0 + i], [0x00, 0x10], [0x00, 0x02],
    0x40 :: (List.range 128).map (fun c => g i c)]

/-! ## Text -/

/-- Modelled from the spec: the struct `ASCIIFont` of `font.h`, which is not part of the
sources at hand: glyph height and width (bytes) and the dense table `chars`, indexed from
the glyph of `' '`.  `chars` is the memory around the table start, so that the offset
`(ch - ' ') * size` of a character below `' '` has a meaning. -/
structure ASCIIFont where
  h : Nat
  w : Nat
  chars : Int → Nat

/-- Modelled from the spec: the struct `Font` of `font.h`, which is not part of the sources
at hand: glyph height and width (bytes), the glyph table `chars` (entries of a 4-byte key
followed by the bitmap), the entry count `len` (a byte) and the ASCII font used as
fallback. -/
structure Font where
  h : Nat
  w : Nat
  chars : Nat → Nat
  len : Nat
  ascii : ASCIIFont

/-- The byte `str[k]` of a C string given by its bytes before the terminator: the
terminator `0` at `k = length`; reads behind the terminator also give `0`. -/
def strAt (str : List Nat) (k : Nat) : Nat := str.getD k 0

/-- Function `OLED_PrintASCIIChar(x, y, ch, font, color)`. -/
def OLED_PrintASCIIChar (x y ch : Nat) (font : ASCIIFont) (color : OLED_ColorMode)
    (g : GRAM) : GRAM :=
  OLED_SetBlock x y
    (fun k => font.chars (((ch : Int) - 32) * (((font.h + 7) / 8 * font.w : Nat) : Int) + k))
    font.w font.h color g

/-- Function `_OLED_GetUTF8Len(string)`, as a function of the byte `string[0]`. -/
def _OLED_GetUTF8Len (c : Nat) : Nat :=
  if c &&& 0x80 = 0x00 then 1
  else if c &&& 0xE0 = 0xC0 then 2
  else if c &&& 0xF0 = 0xE0 then 3
  else if c &&& 0xF8 = 0xF0 then 4
  else 0

/-- The test `memcmp(a, b, n) == 0`. -/
def memEq (a b : Nat → Nat) (n : Nat) : Bool :=
  (List.range n).all (fun k => a k == b k)

/-- The stride `uint8_t oneLen = (((font->h + 7) / 8) * font->w) + 4;` of
`OLED_PrintString`. -/
def oneLen (font : Font) : Nat := ((font.h + 7) / 8 * font.w + 4) % 256

/-- The search loop of `OLED_PrintString`,
`for (uint8_t j = 0; j < font->len; j++) { head = font->chars + j * oneLen;
if (memcmp(str + i, head, utf8Len) == 0) { ...; break; } }`, with `count` entries left to
look at: the index of the entry at which the loop breaks, if any. -/
def findGlyph (font : Font) (key : Nat → Nat) (utf8Len : Nat) (j count : Nat) : Option Nat :=
  match count with
  | 0 => none
  | c + 1 =>
    if memEq key (fun k => font.chars (j * oneLen font + k)) utf8Len then some j
    else findGlyph font key utf8Len (j + 1) c

/-- The loop `while (str[i]) { ... }` of `OLED_PrintString`; `x` is a `uint8_t` and `i` a
`uint16_t`. -/
def printLoop (fuel : Nat) (str : List Nat) (font : Font) (color : OLED_ColorMode)
    (x y i : Nat) (g : GRAM) : Option GRAM :=
  match fuel with
  | 0 => none
  | f + 1 =>
    if strAt str i = 0 then some g
    else
      let utf8Len := _OLED_GetUTF8Len (strAt str i)
      if utf8Len = 0 then some g
      else
        match findGlyph font (fun k => strAt str (i + k)) utf8Len 0 font.len with
        | some j =>
          let head := j * oneLen font
          let g := OLED_SetBlock x y (fun k => font.chars (head + 4 + k)) font.w font.h color g
          printLoop f str font color ((x + font.w) % 256) y ((i + utf8Len) % 65536) g
        | none =>
          if utf8Len = 1 then
            let g := OLED_PrintASCIIChar x y (strAt str i) font.ascii color g
            printLoop f str font color ((x + font.ascii.w) % 256) y ((i + utf8Len) % 65536) g
          else
            let g := OLED_PrintASCIIChar x y 32 font.ascii color g
            printLoop f str font color ((x + font.ascii.w) % 256) y ((i + utf8Len) % 65536) g

/-- Function `OLED_PrintString(x, y, str, font, color)`.  The value of `i` decides alone
when the loop is left and how `i` moves on, so a loop that has not ended after 65536 tests
never ends. -/
def OLED_PrintString (x y : Nat) (str : List Nat) (font : Font) (color : OLED_ColorMode)
    (g : GRAM) : Option GRAM :=
  printLoop loopFuel str font color x y 0 g

/-- A string made of complete characters: every character starts with a byte for which
`_OLED_GetUTF8Len` gives a non-zero length, and has that many bytes. -/
inductive CompleteChars : List Nat → Prop where
  | nil : CompleteChars []
  | cons (b : Nat) (ch rest : List Nat) :
      _OLED_GetUTF8Len b = (b :: ch).length → CompleteChars rest →
      CompleteChars (b :: ch ++ rest)

/-- The effect of one iteration of the loop of `OLED_PrintString` on the cursor `x` and on
the framebuffer, for a character of `n` bytes `key 0, ..., key (n - 1)` with first byte `b`:
the glyph of the first entry whose key matches, or else the ASCII glyph of `b` (`n = 1`) or
of `' '`. -/
def charDraw (font : Font) (color : OLED_ColorMode) (x y : Nat) (g : GRAM) (b n : Nat)
    (key : Nat → Nat) : Nat × GRAM :=
  match findGlyph font key n 0 font.len with
  | some j =>
    ((x + font.w) % 256,
      OLED_SetBlock x y (fun k => font.chars (j * oneLen font + 4 + k)) font.w font.h color g)
  | none =>
    ((x + font.ascii.w) % 256,
      OLED_PrintASCIIChar x y (if n = 1 then b else 32) font.ascii color g)

/-- An ASCII font of 6 × 8 glyphs whose table is all zero, for the examples. -/
def blankAscii : ASCIIFont := { h := 8, w := 6, chars := fun _ => 0 }

/-- A font of 48 × 48 glyphs (entries of 4 + 6 * 48 = 292 bytes) with two entries, both
with the key `00 00 00 00`; inside the bitmap of entry 0 the bytes at the offsets 36 and 37
are `C3 A9`, and the byte at offset 40 is `FF`. -/
def font48Stray : Font :=
  { h := 48, w := 48, len := 2, ascii := blankAscii,
    chars := fun k => if k = 36 then 0xC3 else if k = 37 then 0xA9 else if k = 40 then 0xFF
      else 0 }

/-- A font of 48 × 48 glyphs (entries of 292 bytes) with two entries: entry 0 has the key
`41 00 00 00` and an empty bitmap, entry 1, at offset 292, has the key `C3 A9 00 00` and a
bitmap whose first byte, at offset 296, is `FF`. -/
def font48Second : Font :=
  { h := 48, w := 48, len := 2, ascii := blankAscii,
    chars := fun k => if k = 0 then 0x41 else if k = 292 then 0xC3 else if k = 293 then 0xA9
      else if k = 296 then 0xFF else 0 }

/-- The calls `OLED_SetPixel(p.1, p.2, color)` for the points `p` of a list, in the order
of the list. -/
def plotAll (pts : List (Nat × Nat)) (color : OLED_ColorMode) (g : GRAM) : GRAM :=
  pts.foldl (fun g p => OLED_SetPixel p.1 p.2 color g) g

/-- The macro `#define abs(x) x < 0 ? (-x) : x`, as used in `dx = abs(dx)`. -/
def absMacro (d : Int) : Int := if d < 0 then -d else d

/-- The step `((d > 0) << 1) - 1` of `OLED_DrawLine`: 1 for `d > 0`, else -1. -/
def unitStep (d : Int) : Int := (if d > 0 then 1 else 0) * 2 - 1

/-- A font of 16 × 16 glyphs (entries of 4 + 2 * 16 = 36 bytes) with two entries: entry 0
has the key `41 00 00 00`, entry 1, at offset 36, has the key `C3 A9 00 00` and a bitmap
whose first byte, at offset 40, is `FF`. -/
def font16 : Font :=
  { h := 16, w := 16, len := 2, ascii := blankAscii,
    chars := fun k => if k = 0 then 0x41 else if k = 36 then 0xC3 else if k = 37 then 0xA9
      else if k = 40 then 0xFF else 0 }

/-! ## Bit-level facts about bytes -/

theorem store_same (g : GRAM) (page column v : Nat) : store g page column v page column = v := by
  simp [store]

theorem store_other (g : GRAM) (page column v p c : Nat) (h : ¬ (p = page ∧ c = column)) :
    store g page column v p c = g p c := by
  simp only [store, if_neg h]

theorem testBit_255 (i : Nat) : Nat.testBit 255 i = decide (i < 8) :=
  Nat.testBit_two_pow_sub_one 8 i

theorem testBit_mod256 (v i : Nat) : (v % 256).testBit i = (decide (i < 8) && v.testBit i) :=
  Nat.testBit_mod_two_pow v 8 i

theorem testBit_not8 (v i : Nat) : (not8 v).testBit i = (decide (i < 8) && !v.testBit i) := by
  unfold not8
  rw [Nat.testBit_xor, testBit_255, testBit_mod256]
  by_cases h : i < 8 <;> simp [h]

theorem testBit_one_shiftLeft (k i : Nat) : (1 <<< k).testBit i = decide (k = i) := by
  rw [Nat.one_shiftLeft, Nat.testBit_two_pow]

/-- Bits of the byte written by `OLED_SetByte_Fine`. -/
theorem OLED_SetByte_Fine_bit (page column data start end_ : Nat) (color : OLED_ColorMode)
    (g : GRAM) (hp : page < 8) (hc : column < 128) (i : Nat) (hi : i < 8) :
    (OLED_SetByte_Fine page column data start end_ color g page column).testBit i
      = if start ≤ i ∧ i ≤ end_ then (data.testBit i != decide (color = OLED_COLOR_REVERSED))
        else (g page column).testBit i := by
  have hp' : ¬ (page ≥ OLED_PAGE ∨ column ≥ OLED_COLUMN) := by
    simp only [OLED_PAGE, OLED_COLUMN]; omega
  unfold OLED_SetByte_Fine
  rw [if_neg hp']
  simp only [store, and_self, if_true, testBit_mod256, Nat.testBit_or, Nat.testBit_and,
    testBit_not8, Nat.testBit_shiftLeft, Nat.testBit_shiftRight, testBit_255, hi, decide_True,
    Bool.true_and]
  cases color <;>
    by_cases h1 : start ≤ i <;> by_cases h2 : i ≤ end_ <;>
    cases hd : data.testBit i <;> cases hg : (g page column).testBit i <;>
    simp [OLED_ColorMode.val, testBit_not8, hd, hg, h1, h2, hi] <;> omega

/-- Bytes other than the addressed one are not touched by `OLED_SetByte_Fine`. -/
theorem OLED_SetByte_Fine_other (page column data start end_ : Nat) (color : OLED_ColorMode)
    (g : GRAM) (p c : Nat) (h : ¬ (p = page ∧ c = column)) :
    OLED_SetByte_Fine page column data start end_ color g p c = g p c := by
  unfold OLED_SetByte_Fine
  split
  · rfl
  · simp only [store, if_neg h]

/-- Out of range, `OLED_SetByte_Fine` does nothing. -/
theorem OLED_SetByte_Fine_out (page column data start end_ : Nat) (color : OLED_ColorMode)
    (g : GRAM) (h : 8 ≤ page ∨ 128 ≤ column) :
    OLED_SetByte_Fine page column data start end_ color g = g := by
  unfold OLED_SetByte_Fine
  rw [if_pos (by simpa only [OLED_PAGE, OLED_COLUMN] using h)]

/-- Bits of the byte written by `OLED_SetPixel`. -/
theorem OLED_SetPixel_bit (x y : Nat) (color : OLED_ColorMode) (g : GRAM)
    (hx : x < 128) (hy : y < 64) (i : Nat) (hi : i < 8) :
    (OLED_SetPixel x y color g (y / 8) x).testBit i
      = if i = y % 8 then decide (color = OLED_COLOR_NORMAL) else (g (y / 8) x).testBit i := by
  have hin : ¬ (x ≥ OLED_COLUMN ∨ y ≥ OLED_ROW) := by
    simp only [OLED_COLUMN, OLED_ROW, OLED_PAGE]; omega
  unfold OLED_SetPixel
  rw [if_neg hin]
  have h8 : y % 8 < 8 := Nat.mod_lt _ (by decide)
  have e0 : ∀ a b : GRAM, (if OLED_COLOR_NORMAL.val = 0 then a else b) = a := fun _ _ => rfl
  have e1 : ∀ a b : GRAM, (if OLED_COLOR_REVERSED.val = 0 then a else b) = b := fun _ _ => rfl
  by_cases h1 : i = y % 8
  · have h2 : (y % 8 = i) = True := eq_true h1.symm
    cases color
    · rw [e0]
      simp only [store_same, testBit_mod256, testBit_one_shiftLeft, Nat.testBit_or]
      simp [hi, h1, h8]
    · rw [e1]
      simp only [store_same, testBit_mod256, testBit_not8, testBit_one_shiftLeft,
        Nat.testBit_and]
      simp [hi, h1, h8]
  · have h2 : (y % 8 = i) = False := eq_false (fun h => h1 h.symm)
    cases color
    · rw [e0]
      simp only [store_same, testBit_mod256, testBit_one_shiftLeft, Nat.testBit_or]
      simp [hi, h1, h2]
    · rw [e1]
      simp only [store_same, testBit_mod256, testBit_not8, testBit_one_shiftLeft,
        Nat.testBit_and]
      simp [hi, h1, h2]

/-- Bytes other than the addressed one are not touched by `OLED_SetPixel`. -/
theorem OLED_SetPixel_other (x y : Nat) (color : OLED_ColorMode) (g : GRAM) (p c : Nat)
    (h : ¬ (p = y / 8 ∧ c = x)) : OLED_SetPixel x y color g p c = g p c := by
  unfold OLED_SetPixel
  split
  · rfl
  · split <;> simp only [store, if_neg h]

/-- Out of range, `OLED_SetPixel` does nothing. -/
theorem OLED_SetPixel_out (x y : Nat) (color : OLED_ColorMode) (g : GRAM)
    (h : 128 ≤ x ∨ 64 ≤ y) : OLED_SetPixel x y color g = g := by
  unfold OLED_SetPixel
  rw [if_pos (by simpa only [OLED_COLUMN, OLED_ROW, OLED_PAGE] using h)]

/-- Pixel view of `OLED_SetPixel`. -/
theorem OLED_SetPixel_pixel (x y : Nat) (color : OLED_ColorMode) (g : GRAM) (px py : Nat) :
    pixel (OLED_SetPixel x y color g) px py
      = if px = x ∧ py = y ∧ x < 128 ∧ y < 64 then decide (color = OLED_COLOR_NORMAL)
        else pixel g px py := by
  by_cases hr : 128 ≤ x ∨ 64 ≤ y
  · rw [OLED_SetPixel_out x y color g hr, if_neg (by omega)]
  · have hx : x < 128 := by omega
    have hy : y < 64 := by omega
    by_cases hb : py / 8 = y / 8 ∧ px = x
    · obtain ⟨hb1, hb2⟩ := hb
      subst hb2
      unfold pixel
      rw [hb1, OLED_SetPixel_bit px y color g hx hy (py % 8) (Nat.mod_lt _ (by decide))]
      by_cases he : py % 8 = y % 8
      · rw [if_pos he, if_pos (by omega)]
      · rw [if_neg he, if_neg (by omega)]
    · unfold pixel
      rw [OLED_SetPixel_other x y color g _ _ hb, if_neg (by omega)]

/-- Pixel view of `OLED_SetByte_Fine`. -/
theorem OLED_SetByte_Fine_pixel (page column data start end_ : Nat) (color : OLED_ColorMode)
    (g : GRAM) (px py : Nat) :
    pixel (OLED_SetByte_Fine page column data start end_ color g) px py
      = if px = column ∧ py / 8 = page ∧ start ≤ py % 8 ∧ py % 8 ≤ end_ ∧ page < 8 ∧ column < 128
        then (data.testBit (py % 8) != decide (color = OLED_COLOR_REVERSED))
        else pixel g px py := by
  have h8 : py % 8 < 8 := Nat.mod_lt _ (by decide)
  by_cases hr : 8 ≤ page ∨ 128 ≤ column
  · rw [OLED_SetByte_Fine_out _ _ _ _ _ _ _ hr, if_neg (by omega)]
  · by_cases hb : py / 8 = page ∧ px = column
    · obtain ⟨hb1, hb2⟩ := hb
      subst hb1 hb2
      unfold pixel
      rw [OLED_SetByte_Fine_bit _ _ _ _ _ _ _ (by omega) (by omega) _ h8]
      by_cases hs : start ≤ py % 8 ∧ py % 8 ≤ end_
      · rw [if_pos hs, if_pos (by omega)]
      · rw [if_neg hs, if_neg (by omega)]
    · unfold pixel
      rw [OLED_SetByte_Fine_other _ _ _ _ _ _ _ _ _ hb, if_neg (by omega)]

/-- Pixel view of `OLED_SetBits_Fine`: the run of `len` pixels below `(x, y)` takes the
bits of `data`, the part of it below row 64 being dropped. -/
theorem OLED_SetBits_Fine_pixel (x y data len : Nat) (color : OLED_ColorMode) (g : GRAM)
    (hy : y < 256) (hl1 : 1 ≤ len) (hl8 : len ≤ 8) (px py : Nat) (hpy : py < 64) :
    pixel (OLED_SetBits_Fine x y data len color g) px py
      = if px = x ∧ y ≤ py ∧ py < y + len ∧ x < 128
        then (data.testBit (py - y) != decide (color = OLED_COLOR_REVERSED))
        else pixel g px py := by
  have h8 : py % 8 < 8 := Nat.mod_lt _ (by decide)
  unfold OLED_SetBits_Fine
  by_cases hcross : y % 8 + len > 8
  · simp only [if_pos hcross]
    rw [OLED_SetByte_Fine_pixel, OLED_SetByte_Fine_pixel]
    have e1 : (y / 8 + 1) % 256 = y / 8 + 1 := by omega
    have e2 : (len + y % 8 + 247) % 256 = len + y % 8 - 9 := by omega
    rw [e1, e2]
    by_cases hA : px = x ∧ py / 8 = y / 8 + 1 ∧ 0 ≤ py % 8 ∧ py % 8 ≤ len + y % 8 - 9
        ∧ y / 8 + 1 < 8 ∧ x < 128
    · rw [if_pos hA, if_pos (by omega)]
      have e3 : 8 - y % 8 + py % 8 = py - y := by omega
      simp only [testBit_mod256, Nat.testBit_shiftRight, e3, h8, decide_True, Bool.true_and]
    · rw [if_neg hA]
      by_cases hB : px = x ∧ py / 8 = y / 8 ∧ y % 8 ≤ py % 8 ∧ py % 8 ≤ 7 ∧ y / 8 < 8 ∧ x < 128
      · rw [if_pos hB, if_pos (by omega)]
        have e3 : py % 8 - y % 8 = py - y := by omega
        have e4 : py % 8 ≥ y % 8 := by omega
        simp only [testBit_mod256, Nat.testBit_shiftLeft, e3, e4, h8, decide_True, Bool.true_and]
      · rw [if_neg hB, if_neg (by omega)]
  · simp only [if_neg hcross]
    rw [OLED_SetByte_Fine_pixel]
    have e2 : (y % 8 + len + 255) % 256 = y % 8 + len - 1 := by omega
    rw [e2]
    by_cases hB : px = x ∧ py / 8 = y / 8 ∧ y % 8 ≤ py % 8 ∧ py % 8 ≤ y % 8 + len - 1
        ∧ y / 8 < 8 ∧ x < 128
    · rw [if_pos hB, if_pos (by omega)]
      have e3 : py % 8 - y % 8 = py - y := by omega
      have e4 : py % 8 ≥ y % 8 := by omega
      simp only [testBit_mod256, Nat.testBit_shiftLeft, e3, e4, h8, decide_True, Bool.true_and]
    · rw [if_neg hB, if_neg (by omega)]

/-- Pixel view of `OLED_SetBits`: the run of 8 pixels below `(x, y)`. -/
theorem OLED_SetBits_pixel (x y data : Nat) (color : OLED_ColorMode) (g : GRAM)
    (hy : y < 256) (px py : Nat) (hpy : py < 64) :
    pixel (OLED_SetBits x y data color g) px py
      = if px = x ∧ y ≤ py ∧ py < y + 8 ∧ x < 128
        then (data.testBit (py - y) != decide (color = OLED_COLOR_REVERSED))
        else pixel g px py := by
  have h8 : py % 8 < 8 := Nat.mod_lt _ (by decide)
  unfold OLED_SetBits
  by_cases hbit : y % 8 ≠ 0
  · simp only [if_pos hbit]
    rw [OLED_SetByte_Fine_pixel, OLED_SetByte_Fine_pixel]
    have e1 : (y / 8 + 1) % 256 = y / 8 + 1 := by omega
    rw [e1]
    by_cases hA : px = x ∧ py / 8 = y / 8 + 1 ∧ 0 ≤ py % 8 ∧ py % 8 ≤ y % 8 - 1
        ∧ y / 8 + 1 < 8 ∧ x < 128
    · rw [if_pos hA, if_pos (by omega)]
      have e3 : 8 - y % 8 + py % 8 = py - y := by omega
      simp only [testBit_mod256, Nat.testBit_shiftRight, e3, h8, decide_True, Bool.true_and]
    · rw [if_neg hA]
      by_cases hB : px = x ∧ py / 8 = y / 8 ∧ y % 8 ≤ py % 8 ∧ py % 8 ≤ 7 ∧ y / 8 < 8 ∧ x < 128
      · rw [if_pos hB, if_pos (by omega)]
        have e3 : py % 8 - y % 8 = py - y := by omega
        have e4 : py % 8 ≥ y % 8 := by omega
        simp only [testBit_mod256, Nat.testBit_shiftLeft, e3, e4, h8, decide_True, Bool.true_and]
      · rw [if_neg hB, if_neg (by omega)]
  · simp only [if_neg hbit]
    rw [OLED_SetByte_Fine_pixel]
    by_cases hB : px = x ∧ py / 8 = y / 8 ∧ y % 8 ≤ py % 8 ∧ py % 8 ≤ 7 ∧ y / 8 < 8 ∧ x < 128
    · rw [if_pos hB, if_pos (by omega)]
      have e3 : py % 8 - y % 8 = py - y := by omega
      have e4 : py % 8 ≥ y % 8 := by omega
      simp only [testBit_mod256, Nat.testBit_shiftLeft, e3, e4, h8, decide_True, Bool.true_and]
    · rw [if_neg hB, if_neg (by omega)]

/-- Pixel view of the per-pixel reference loop. -/
theorem OLED_SetBits_Fine_ref_pixel (x y data : Nat) (color : OLED_ColorMode) (g : GRAM)
    (px py : Nat) (len : Nat) (hlen : y + len ≤ 256) :
    pixel (OLED_SetBits_Fine_ref x y data len color g) px py
      = if px = x ∧ y ≤ py ∧ py < y + len ∧ x < 128 ∧ py < 64
        then (data.testBit (py - y) != decide (color = OLED_COLOR_REVERSED))
        else pixel g px py := by
  unfold OLED_SetBits_Fine_ref
  induction len with
  | zero => rw [if_neg (by omega)]; rfl
  | succ k ih =>
    have ih := ih (by omega)
    simp only [forRange]
    rw [OLED_SetPixel_pixel, ih]
    have e1 : (y + k) % 256 = y + k := by omega
    rw [e1]
    by_cases hA : px = x ∧ py = y + k ∧ x < 128 ∧ y + k < 64
    · have hC : px = x ∧ y ≤ py ∧ py < y + (k + 1) ∧ x < 128 ∧ py < 64 := by omega
      have e2 : py - y = k := by omega
      rw [if_pos hA, if_pos hC, e2]
      cases color <;> cases data.testBit k <;> simp
    · rw [if_neg hA]
      by_cases hB : px = x ∧ y ≤ py ∧ py < y + k ∧ x < 128 ∧ py < 64
      · rw [if_pos hB, if_pos (by omega)]
      · rw [if_neg hB, if_neg (by omega)]

/-- A counted loop seen at one pixel: if every iteration either writes the value `V` there
(iterations in `R`) or leaves the pixel alone, the loop writes `V` when some iteration is in
`R` and leaves the pixel alone when none is. -/
theorem forRange_pixel (body : Nat → GRAM → GRAM) (px py : Nat) (V : Bool) (R : Nat → Prop)
    (n : Nat)
    (hin : ∀ i g, i < n → R i → pixel (body i g) px py = V)
    (hout : ∀ i g, i < n → ¬ R i → pixel (body i g) px py = pixel g px py) (g : GRAM) :
    ((∃ i, i < n ∧ R i) → pixel (forRange n body g) px py = V) ∧
    ((∀ i, i < n → ¬ R i) → pixel (forRange n body g) px py = pixel g px py) := by
  induction n with
  | zero =>
    constructor
    · rintro ⟨i, hi, _⟩
      omega
    · intro _
      rfl
  | succ k ih =>
    have ih := ih (fun i g hi => hin i g (by omega)) (fun i g hi => hout i g (by omega))
    simp only [forRange]
    constructor
    · rintro ⟨i, hi, hR⟩
      by_cases hk : R k
      · exact hin k _ (by omega) hk
      · rw [hout k _ (by omega) hk]
        have hne : i ≠ k := fun h => hk (h ▸ hR)
        exact ih.1 ⟨i, by omega, hR⟩
    · intro hall
      rw [hout k _ (by omega) (hall k (by omega))]
      exact ih.2 (fun i hi => hall i (by omega))

/-- Pixel view of `OLED_SetBlock` when the 8-bit coordinate sums do not overflow. -/
theorem OLED_SetBlock_pixel (x y : Nat) (data : Nat → Nat) (w h : Nat)
    (color : OLED_ColorMode) (g : GRAM) (hw : w < 256) (hh : h < 256)
    (hxw : x + w ≤ 256) (hyh : y + h ≤ 256) (px py : Nat) (hpx : px < 128) (hpy : py < 64) :
    pixel (OLED_SetBlock x y data w h color g) px py
      = if x ≤ px ∧ px < x + w ∧ y ≤ py ∧ py < y + h then blockBit x y data w color px py
        else pixel g px py := by
  have hfn : (w * (h / 8)) % 65536 = w * (h / 8) := by
    have h1 : w * (h / 8) ≤ 255 * 31 := Nat.mul_le_mul (by omega) (by omega)
    omega
  -- the loop over the full byte rows of one column
  have inner : ∀ i, i < w → ∀ G : GRAM,
      ((∃ j, j < h / 8 ∧ (px = x + i ∧ y + j * 8 ≤ py ∧ py < y + j * 8 + 8)) →
        pixel (forRange (h / 8) (fun j g =>
          OLED_SetBits ((x + i) % 256) ((y + j * 8) % 256) (data (i + j * w) % 256) color g) G)
          px py = blockBit x y data w color px py) ∧
      ((∀ j, j < h / 8 → ¬ (px = x + i ∧ y + j * 8 ≤ py ∧ py < y + j * 8 + 8)) →
        pixel (forRange (h / 8) (fun j g =>
          OLED_SetBits ((x + i) % 256) ((y + j * 8) % 256) (data (i + j * w) % 256) color g) G)
          px py = pixel G px py) := by
    intro i hi G
    apply forRange_pixel
    · intro j g0 hj hR
      have e1 : (x + i) % 256 = x + i := by omega
      have e2 : (y + j * 8) % 256 = y + j * 8 := by omega
      have hc : px = x + i ∧ y + j * 8 ≤ py ∧ py < y + j * 8 + 8 ∧ x + i < 128 := by omega
      rw [OLED_SetBits_pixel _ _ _ _ _ (Nat.mod_lt _ (by decide)) _ _ hpy, e1, e2, if_pos hc]
      have hi2 : px - x = i := by omega
      have hj2 : (py - y) / 8 = j := by omega
      have e3 : py - (y + j * 8) = (py - y) % 8 := by omega
      have h8 : (py - y) % 8 < 8 := Nat.mod_lt _ (by decide)
      simp only [blockBit, hi2, hj2, e3, testBit_mod256, h8, decide_True, Bool.true_and]
    · intro j g0 hj hR
      have e1 : (x + i) % 256 = x + i := by omega
      have e2 : (y + j * 8) % 256 = y + j * 8 := by omega
      have hc : ¬ (px = x + i ∧ y + j * 8 ≤ py ∧ py < y + j * 8 + 8 ∧ x + i < 128) := by omega
      rw [OLED_SetBits_pixel _ _ _ _ _ (Nat.mod_lt _ (by decide)) _ _ hpy, e1, e2, if_neg hc]
  -- the loop over the columns
  have outer : ∀ G : GRAM,
      ((∃ i, i < w ∧ ∃ j, j < h / 8 ∧ (px = x + i ∧ y + j * 8 ≤ py ∧ py < y + j * 8 + 8)) →
        pixel (forRange w (fun i g => forRange (h / 8) (fun j g =>
          OLED_SetBits ((x + i) % 256) ((y + j * 8) % 256) (data (i + j * w) % 256) color g) g)
          G) px py = blockBit x y data w color px py) ∧
      ((∀ i, i < w → ¬ ∃ j, j < h / 8 ∧ (px = x + i ∧ y + j * 8 ≤ py ∧ py < y + j * 8 + 8)) →
        pixel (forRange w (fun i g => forRange (h / 8) (fun j g =>
          OLED_SetBits ((x + i) % 256) ((y + j * 8) % 256) (data (i + j * w) % 256) color g) g)
          G) px py = pixel G px py) := by
    intro G
    apply forRange_pixel
    · intro i g0 hi hR
      exact (inner i hi g0).1 hR
    · intro i g0 hi hR
      exact (inner i hi g0).2 (fun j hj hc => hR ⟨j, hj, hc⟩)
  -- the loop over the last, partial byte row
  have part : h % 8 ≠ 0 → ∀ G : GRAM,
      ((∃ i, i < w ∧ (px = x + i ∧ y + h / 8 * 8 ≤ py ∧ py < y + h)) →
        pixel (forRange w (fun i g =>
          OLED_SetBits_Fine ((x + i) % 256) ((y + h / 8 * 8) % 256)
            (data (w * (h / 8) + i) % 256) (h % 8) color g) G) px py
          = blockBit x y data w color px py) ∧
      ((∀ i, i < w → ¬ (px = x + i ∧ y + h / 8 * 8 ≤ py ∧ py < y + h)) →
        pixel (forRange w (fun i g =>
          OLED_SetBits_Fine ((x + i) % 256) ((y + h / 8 * 8) % 256)
            (data (w * (h / 8) + i) % 256) (h % 8) color g) G) px py = pixel G px py) := by
    intro hpart G
    apply forRange_pixel
    · intro i g0 hi hR
      have e1 : (x + i) % 256 = x + i := by omega
      have e2 : (y + h / 8 * 8) % 256 = y + h / 8 * 8 := by omega
      have hc : px = x + i ∧ y + h / 8 * 8 ≤ py ∧ py < y + h / 8 * 8 + h % 8 ∧ x + i < 128 := by
        omega
      rw [OLED_SetBits_Fine_pixel _ _ _ _ _ _ (Nat.mod_lt _ (by decide)) (by omega) (by omega)
        _ _ hpy, e1, e2, if_pos hc]
      have hi2 : px - x = i := by omega
      have hj2 : (py - y) / 8 = h / 8 := by omega
      have e3 : py - (y + h / 8 * 8) = (py - y) % 8 := by omega
      have h8 : (py - y) % 8 < 8 := Nat.mod_lt _ (by decide)
      have e4 : w * (h / 8) + i = i + h / 8 * w := by rw [Nat.mul_comm, Nat.add_comm]
      simp only [blockBit, hi2, hj2, e3, e4, testBit_mod256, h8, decide_True, Bool.true_and]
    · intro i g0 hi hR
      have e1 : (x + i) % 256 = x + i := by omega
      have e2 : (y + h / 8 * 8) % 256 = y + h / 8 * 8 := by omega
      have hc : ¬ (px = x + i ∧ y + h / 8 * 8 ≤ py ∧ py < y + h / 8 * 8 + h % 8
          ∧ x + i < 128) := by omega
      rw [OLED_SetBits_Fine_pixel _ _ _ _ _ _ (Nat.mod_lt _ (by decide)) (by omega) (by omega)
        _ _ hpy, e1, e2, if_neg hc]
  -- the two loops together
  unfold OLED_SetBlock
  simp only [hfn]
  by_cases hfull : x ≤ px ∧ px < x + w ∧ y ≤ py ∧ py < y + h / 8 * 8
  · have hex : ∃ i, i < w ∧ ∃ j, j < h / 8 ∧ (px = x + i ∧ y + j * 8 ≤ py ∧ py < y + j * 8 + 8) :=
      ⟨px - x, by omega, (py - y) / 8, by omega, by omega⟩
    have hrect : x ≤ px ∧ px < x + w ∧ y ≤ py ∧ py < y + h := by omega
    rw [if_pos hrect]
    by_cases hpart : h % 8 ≠ 0
    · rw [if_pos hpart, (part hpart _).2 (fun i hi hc => by omega)]
      exact (outer g).1 hex
    · rw [if_neg hpart]
      exact (outer g).1 hex
  · have hno : ∀ i, i < w →
        ¬ ∃ j, j < h / 8 ∧ (px = x + i ∧ y + j * 8 ≤ py ∧ py < y + j * 8 + 8) := by
      rintro i hi ⟨j, hj, hc⟩
      omega
    by_cases hpart : h % 8 ≠ 0
    · rw [if_pos hpart]
      by_cases hlast : x ≤ px ∧ px < x + w ∧ y + h / 8 * 8 ≤ py ∧ py < y + h
      · have hrect : x ≤ px ∧ px < x + w ∧ y ≤ py ∧ py < y + h := by omega
        rw [if_pos hrect]
        exact (part hpart _).1 ⟨px - x, by omega, by omega⟩
      · have hrect : ¬ (x ≤ px ∧ px < x + w ∧ y ≤ py ∧ py < y + h) := by omega
        rw [if_neg hrect, (part hpart _).2 (fun i hi hc => by omega)]
        exact (outer g).2 hno
    · have hrect : ¬ (x ≤ px ∧ px < x + w ∧ y ≤ py ∧ py < y + h) := by omega
      rw [if_neg hpart, if_neg hrect]
      exact (outer g).2 hno

/-! ## The bit-region writer: claims C1, C2, C4, C5 -/

/-- C1: for `page < 8`, `column < 128`, a data byte and `start ≤ end ≤ 7`, after
`OLED_SetByte_Fine(page, column, data, start, end, mode)` every bit `i` of
`GRAM[page][column]` with `start ≤ i ≤ end` is bit `i` of `data` in normal mode and its
complement in reversed mode, every other bit of that byte keeps its value, and every other
byte of the framebuffer is unchanged. -/
theorem C1_OLED_SetByte_Fine_contract (page column data start end_ : Nat)
    (color : OLED_ColorMode) (g : GRAM) (hp : page < 8) (hc : column < 128)
    (_hd : data < 256) (_hse : start ≤ end_) (_he : end_ ≤ 7) :
    (∀ i, start ≤ i → i ≤ end_ →
      (OLED_SetByte_Fine page column data start end_ color g page column).testBit i
        = (if color = OLED_COLOR_NORMAL then data.testBit i else !data.testBit i)) ∧
    (∀ i, i < 8 → ¬ (start ≤ i ∧ i ≤ end_) →
      (OLED_SetByte_Fine page column data start end_ color g page column).testBit i
        = (g page column).testBit i) ∧
    (∀ p c, ¬ (p = page ∧ c = column) →
      OLED_SetByte_Fine page column data start end_ color g p c = g p c) := by
  refine ⟨?_, ?_, ?_⟩
  · intro i h1 h2
    rw [OLED_SetByte_Fine_bit _ _ _ _ _ _ _ hp hc i (by omega), if_pos ⟨h1, h2⟩]
    cases color <;> simp
  · intro i hi hn
    rw [OLED_SetByte_Fine_bit _ _ _ _ _ _ _ hp hc i hi, if_neg hn]
  · intro p c h
    exact OLED_SetByte_Fine_other _ _ _ _ _ _ _ _ _ h

/-- Witness of C1: nibble `[2, 5]` of the byte at page 3, column 17 of an all-ones
framebuffer, written from `0xA4` in reversed mode. -/
theorem C1_OLED_SetByte_Fine_contract_witness :
    (∀ i, 2 ≤ i → i ≤ 5 →
      (OLED_SetByte_Fine 3 17 0xA4 2 5 OLED_COLOR_REVERSED (fun _ _ => 255) 3 17).testBit i
        = (if OLED_COLOR_REVERSED = OLED_COLOR_NORMAL then Nat.testBit 0xA4 i
            else !Nat.testBit 0xA4 i)) ∧
    (∀ i, i < 8 → ¬ (2 ≤ i ∧ i ≤ 5) →
      (OLED_SetByte_Fine 3 17 0xA4 2 5 OLED_COLOR_REVERSED (fun _ _ => 255) 3 17).testBit i
        = ((fun _ _ => 255 : GRAM) 3 17).testBit i) ∧
    (∀ p c, ¬ (p = 3 ∧ c = 17) →
      OLED_SetByte_Fine 3 17 0xA4 2 5 OLED_COLOR_REVERSED (fun _ _ => 255) p c
        = (fun _ _ => 255 : GRAM) p c) :=
  C1_OLED_SetByte_Fine_contract 3 17 0xA4 2 5 OLED_COLOR_REVERSED (fun _ _ => 255)
    (by decide) (by decide) (by decide) (by decide) (by decide)

/-- C2: for `x < 128`, `y < 64`, a data byte and `1 ≤ len ≤ 8`, after
`OLED_SetBits_Fine(x, y, data, len, mode)` every pixel `(x, y + i)` with `i < len` and
`y + i < 64` is bit `i` of `data` (normal) or its complement (reversed), a run that crosses
a page boundary included; every other pixel is unchanged; and the framebuffer agrees pixel
for pixel with the per-pixel loop over `OLED_SetPixel`. -/
theorem C2_OLED_SetBits_Fine_contract (x y data len : Nat) (color : OLED_ColorMode)
    (g : GRAM) (_hx : x < 128) (hy : y < 64) (_hd : data < 256) (hl1 : 1 ≤ len)
    (hl8 : len ≤ 8) :
    (∀ i, i < len → y + i < 64 →
      pixel (OLED_SetBits_Fine x y data len color g) x (y + i)
        = (if color = OLED_COLOR_NORMAL then data.testBit i else !data.testBit i)) ∧
    (∀ px py, px < 128 → py < 64 → ¬ (px = x ∧ y ≤ py ∧ py < y + len) →
      pixel (OLED_SetBits_Fine x y data len color g) px py = pixel g px py) ∧
    (∀ px py, px < 128 → py < 64 →
      pixel (OLED_SetBits_Fine x y data len color g) px py
        = pixel (OLED_SetBits_Fine_ref x y data len color g) px py) := by
  refine ⟨?_, ?_, ?_⟩
  · intro i hi h64
    rw [OLED_SetBits_Fine_pixel x y data len color g (by omega) hl1 hl8 _ _ h64,
      if_pos (by omega), Nat.add_sub_cancel_left]
    cases color <;> simp
  · intro px py _ h64 hn
    rw [OLED_SetBits_Fine_pixel x y data len color g (by omega) hl1 hl8 _ _ h64,
      if_neg (by omega)]
  · intro px py _ h64
    rw [OLED_SetBits_Fine_pixel x y data len color g (by omega) hl1 hl8 _ _ h64,
      OLED_SetBits_Fine_ref_pixel x y data color g px py len (by omega)]
    by_cases hA : px = x ∧ y ≤ py ∧ py < y + len ∧ x < 128
    · rw [if_pos hA, if_pos (by omega)]
    · rw [if_neg hA, if_neg (by omega)]

/-- Witness of C2: a run of 6 bits from row 29 of column 5, which crosses from page 3 into
page 4. -/
theorem C2_OLED_SetBits_Fine_contract_witness :
    (∀ i, i < 6 → 29 + i < 64 →
      pixel (OLED_SetBits_Fine 5 29 0x2D 6 OLED_COLOR_NORMAL OLED_NewFrame) 5 (29 + i)
        = (if OLED_COLOR_NORMAL = OLED_COLOR_NORMAL then Nat.testBit 0x2D i
            else !Nat.testBit 0x2D i)) ∧
    (∀ px py, px < 128 → py < 64 → ¬ (px = 5 ∧ 29 ≤ py ∧ py < 29 + 6) →
      pixel (OLED_SetBits_Fine 5 29 0x2D 6 OLED_COLOR_NORMAL OLED_NewFrame) px py
        = pixel OLED_NewFrame px py) ∧
    (∀ px py, px < 128 → py < 64 →
      pixel (OLED_SetBits_Fine 5 29 0x2D 6 OLED_COLOR_NORMAL OLED_NewFrame) px py
        = pixel (OLED_SetBits_Fine_ref 5 29 0x2D 6 OLED_COLOR_NORMAL OLED_NewFrame) px py) :=
  C2_OLED_SetBits_Fine_contract 5 29 0x2D 6 OLED_COLOR_NORMAL OLED_NewFrame
    (by decide) (by decide) (by decide) (by decide) (by decide)

/-- C4: for `x < 128` and `y < 64`, `OLED_SetPixel(x, y, mode)` sets bit `y mod 8` of
`GRAM[y/8][x]` to 1 in normal mode and to 0 in reversed mode, and leaves every other bit of
that byte and every other byte of the framebuffer unchanged. -/
theorem C4_OLED_SetPixel_in_range (x y : Nat) (color : OLED_ColorMode) (g : GRAM)
    (hx : x < 128) (hy : y < 64) :
    (OLED_SetPixel x y color g (y / 8) x).testBit (y % 8)
        = (if color = OLED_COLOR_NORMAL then true else false) ∧
    (∀ i, i < 8 → i ≠ y % 8 →
      (OLED_SetPixel x y color g (y / 8) x).testBit i = (g (y / 8) x).testBit i) ∧
    (∀ p c, ¬ (p = y / 8 ∧ c = x) → OLED_SetPixel x y color g p c = g p c) := by
  refine ⟨?_, ?_, ?_⟩
  · rw [OLED_SetPixel_bit x y color g hx hy _ (Nat.mod_lt _ (by decide)), if_pos rfl]
    cases color <;> simp
  · intro i hi hne
    rw [OLED_SetPixel_bit x y color g hx hy i hi, if_neg hne]
  · intro p c h
    exact OLED_SetPixel_other x y color g p c h

/-- Witness of C4: clearing pixel `(100, 43)` of an all-ones framebuffer. -/
theorem C4_OLED_SetPixel_in_range_witness :
    (OLED_SetPixel 100 43 OLED_COLOR_REVERSED (fun _ _ => 255) (43 / 8) 100).testBit (43 % 8)
        = (if OLED_COLOR_REVERSED = OLED_COLOR_NORMAL then true else false) ∧
    (∀ i, i < 8 → i ≠ 43 % 8 →
      (OLED_SetPixel 100 43 OLED_COLOR_REVERSED (fun _ _ => 255) (43 / 8) 100).testBit i
        = ((fun _ _ => 255 : GRAM) (43 / 8) 100).testBit i) ∧
    (∀ p c, ¬ (p = 43 / 8 ∧ c = 100) →
      OLED_SetPixel 100 43 OLED_COLOR_REVERSED (fun _ _ => 255) p c
        = (fun _ _ => 255 : GRAM) p c) :=
  C4_OLED_SetPixel_in_range 100 43 OLED_COLOR_REVERSED (fun _ _ => 255) (by decide) (by decide)

/-- C5: for 8-bit `x`, `y` with `x ≥ 128` or `y ≥ 64`, `OLED_SetPixel(x, y, mode)` leaves
the whole framebuffer unchanged. -/
theorem C5_OLED_SetPixel_out_of_range (x y : Nat) (color : OLED_ColorMode) (g : GRAM)
    (_hx : x < 256) (_hy : y < 256) (h : 128 ≤ x ∨ 64 ≤ y) :
    OLED_SetPixel x y color g = g :=
  OLED_SetPixel_out x y color g h

/-- Witness of C5: column 127 is the last one, so `(128, 0)` is dropped. -/
theorem C5_OLED_SetPixel_out_of_range_witness :
    OLED_SetPixel 128 0 OLED_COLOR_NORMAL OLED_NewFrame = OLED_NewFrame :=
  C5_OLED_SetPixel_out_of_range 128 0 OLED_COLOR_NORMAL OLED_NewFrame
    (by decide) (by decide) (by decide)

/-! ## Block writes: claims C3, C6, C7 -/

/-- C3 as stated fails: with two columns of two bytes each, the pixel `(0, 8)` is read from
`data[2]`, not from `data[0 * 2 + 1]` as a column-major layout would have it. -/
theorem C3_column_major_counterexample :
    ¬ (pixel (OLED_SetBlock 0 0 (fun k => [0, 1, 0, 0].getD k 0) 2 16 OLED_COLOR_NORMAL
          OLED_NewFrame) (0 + 0) (0 + 8) = true
        ↔ Nat.testBit ([0, 1, 0, 0].getD (0 * ((16 + 7) / 8) + 8 / 8) 0) (8 % 8) = true) := by
  decide

/-- C3, amended: `OLED_SetBlock` reads `data` one byte row after the other, each byte being
a column of 8 pixels.  For `x + w ≤ 128`, `y + h ≤ 64` and a data array of `w * ceil(h/8)`
bytes, after `OLED_SetBlock(x, y, data, w, h, NORMAL)` the pixel `(x + i, y + r)`, `i < w`,
`r < h`, is on exactly when bit `r mod 8` of `data[i + (r / 8) * w]` is 1, and that index
lies inside the array. -/
theorem C3_OLED_SetBlock_layout (x y w h : Nat) (data : List Nat) (g : GRAM)
    (hxw : x + w ≤ 128) (hyh : y + h ≤ 64) (hlen : data.length = w * ((h + 7) / 8))
    (_hb : ∀ b ∈ data, b < 256) (i r : Nat) (hi : i < w) (hr : r < h) :
    i + (r / 8) * w < data.length ∧
    pixel (OLED_SetBlock x y (fun k => data.getD k 0) w h OLED_COLOR_NORMAL g) (x + i) (y + r)
      = (data.getD (i + (r / 8) * w) 0).testBit (r % 8) := by
  constructor
  · have h1 : (r / 8 + 1) * w ≤ ((h + 7) / 8) * w := Nat.mul_le_mul_right w (by omega)
    rw [hlen, Nat.mul_comm w]
    rw [Nat.add_mul, Nat.one_mul] at h1
    omega
  · have hrect : x ≤ x + i ∧ x + i < x + w ∧ y ≤ y + r ∧ y + r < y + h := by omega
    rw [OLED_SetBlock_pixel x y _ w h _ g (by omega) (by omega) (by omega) (by omega) _ _
      (by omega) (by omega), if_pos hrect]
    simp [blockBit]

/-- Witness of C3: a block of 3 columns and 11 rows at `(5, 7)`; the pixel of column 2, row 9
comes from the second byte row. -/
theorem C3_OLED_SetBlock_layout_witness :
    2 + (9 / 8) * 3 < [1, 2, 3, 4, 5, 6].length ∧
    pixel (OLED_SetBlock 5 7 (fun k => [1, 2, 3, 4, 5, 6].getD k 0) 3 11 OLED_COLOR_NORMAL
        OLED_NewFrame) (5 + 2) (7 + 9)
      = Nat.testBit ([1, 2, 3, 4, 5, 6].getD (2 + (9 / 8) * 3) 0) (9 % 8) :=
  C3_OLED_SetBlock_layout 5 7 3 11 [1, 2, 3, 4, 5, 6] OLED_NewFrame (by decide) (by decide)
    (by decide) (by decide) 2 9 (by decide) (by decide)

/-- C6: let `S1` be `S0` after `OLED_SetBlock(x, y, data, w, h, NORMAL)` and `S2` be `S1`
after `OLED_SetBlock(x, y, data, w, h, REVERSED)`, with `x + w ≤ 128` and `y + h ≤ 64`.
Every pixel of the rectangle `[x, x+w) × [y, y+h)` in `S2` is the complement of that pixel
in `S1`, and every pixel outside the rectangle is the same in `S0`, `S1` and `S2`. -/
theorem C6_OLED_SetBlock_normal_then_reversed (S0 : GRAM) (x y w h : Nat) (data : Nat → Nat)
    (hxw : x + w ≤ 128) (hyh : y + h ≤ 64) :
    (∀ px py, x ≤ px → px < x + w → y ≤ py → py < y + h →
      pixel (OLED_SetBlock x y data w h OLED_COLOR_REVERSED
          (OLED_SetBlock x y data w h OLED_COLOR_NORMAL S0)) px py
        = !pixel (OLED_SetBlock x y data w h OLED_COLOR_NORMAL S0) px py) ∧
    (∀ px py, px < 128 → py < 64 → ¬ (x ≤ px ∧ px < x + w ∧ y ≤ py ∧ py < y + h) →
      pixel (OLED_SetBlock x y data w h OLED_COLOR_NORMAL S0) px py = pixel S0 px py ∧
      pixel (OLED_SetBlock x y data w h OLED_COLOR_REVERSED
          (OLED_SetBlock x y data w h OLED_COLOR_NORMAL S0)) px py = pixel S0 px py) := by
  have key := fun (c : OLED_ColorMode) (G : GRAM) (px py : Nat) (hpx : px < 128)
      (hpy : py < 64) =>
    OLED_SetBlock_pixel x y data w h c G (by omega) (by omega) (by omega) (by omega) px py
      hpx hpy
  constructor
  · intro px py h1 h2 h3 h4
    rw [key _ _ px py (by omega) (by omega), key _ _ px py (by omega) (by omega),
      if_pos ⟨h1, h2, h3, h4⟩, if_pos ⟨h1, h2, h3, h4⟩]
    simp [blockBit]
  · intro px py hpx hpy hn
    have hA := key OLED_COLOR_NORMAL S0 px py hpx hpy
    have hB := key OLED_COLOR_REVERSED (OLED_SetBlock x y data w h OLED_COLOR_NORMAL S0) px py
      hpx hpy
    rw [if_neg hn] at hA hB
    exact ⟨hA, hB.trans hA⟩

/-- Witness of C6: a 4 × 10 block at `(120, 50)`, reaching into the last column and onto
the last page. -/
theorem C6_OLED_SetBlock_normal_then_reversed_witness :
    (∀ px py, 120 ≤ px → px < 120 + 4 → 50 ≤ py → py < 50 + 10 →
      pixel (OLED_SetBlock 120 50 (fun k => 37 * k + 5) 4 10 OLED_COLOR_REVERSED
          (OLED_SetBlock 120 50 (fun k => 37 * k + 5) 4 10 OLED_COLOR_NORMAL OLED_NewFrame))
          px py
        = !pixel (OLED_SetBlock 120 50 (fun k => 37 * k + 5) 4 10 OLED_COLOR_NORMAL
            OLED_NewFrame) px py) ∧
    (∀ px py, px < 128 → py < 64 → ¬ (120 ≤ px ∧ px < 120 + 4 ∧ 50 ≤ py ∧ py < 50 + 10) →
      pixel (OLED_SetBlock 120 50 (fun k => 37 * k + 5) 4 10 OLED_COLOR_NORMAL OLED_NewFrame)
          px py = pixel OLED_NewFrame px py ∧
      pixel (OLED_SetBlock 120 50 (fun k => 37 * k + 5) 4 10 OLED_COLOR_REVERSED
          (OLED_SetBlock 120 50 (fun k => 37 * k + 5) 4 10 OLED_COLOR_NORMAL OLED_NewFrame))
          px py = pixel OLED_NewFrame px py) :=
  C6_OLED_SetBlock_normal_then_reversed OLED_NewFrame 120 50 4 10 (fun k => 37 * k + 5)
    (by decide) (by decide)

/-- Without overflow of the 8-bit sums (`x + w ≤ 256`, `y + h ≤ 256`), `OLED_SetBlock`
changes no pixel outside `[x, x+w) × [y, y+h)`. -/
theorem OLED_SetBlock_frame (x y : Nat) (data : Nat → Nat) (w h : Nat)
    (color : OLED_ColorMode) (g : GRAM) (hw : w < 256) (hh : h < 256)
    (hxw : x + w ≤ 256) (hyh : y + h ≤ 256) (px py : Nat) (hpx : px < 128) (hpy : py < 64)
    (hn : ¬ (x ≤ px ∧ px < x + w ∧ y ≤ py ∧ py < y + h)) :
    pixel (OLED_SetBlock x y data w h color g) px py = pixel g px py := by
  rw [OLED_SetBlock_pixel x y data w h color g hw hh hxw hyh px py hpx hpy, if_neg hn]

/-- C7 at the failing input `OLED_SetBlock(250, 0, sixteen bytes 0xFF, 16, 8, NORMAL)` on
a cleared framebuffer: the pixel `(0, 0)`, outside `[250, 266) × [0, 8)`, is switched on,
because the column `250 + 6` is passed on as the `uint8_t` value 0. -/
theorem C7_OLED_SetBlock_wraps_columns :
    pixel OLED_NewFrame 0 0 = false ∧
    pixel (OLED_SetBlock 250 0 (fun _ => 255) 16 8 OLED_COLOR_NORMAL OLED_NewFrame) 0 0 = true ∧
    ¬ (250 ≤ 0 ∧ 0 < 250 + 16 ∧ 0 ≤ 0 ∧ 0 < 0 + 8) := by
  set_option maxRecDepth 100000 in decide

/-! ## Lines and rectangles: claims C8, C9, C10 -/

theorem pixel_OLED_NewFrame (px py : Nat) : pixel OLED_NewFrame px py = false := by
  simp [pixel, OLED_NewFrame]

/-- The vertical loop of `OLED_DrawLine` returns once it has set the pixels of rows
`y .. y2` of column `x`. -/
theorem lineLoopV_spec (x y2 : Nat) (color : OLED_ColorMode) (hy2 : y2 < 255) :
    ∀ (m y fuel : Nat) (g : GRAM), y2 + 1 = y + m → m < fuel →
      ∃ g', lineLoopV fuel x y y2 color g = some g' ∧
        ∀ px py, pixel g' px py
          = if px = x ∧ y ≤ py ∧ py ≤ y2 ∧ x < 128 ∧ py < 64
            then decide (color = OLED_COLOR_NORMAL) else pixel g px py := by
  intro m
  induction m with
  | zero =>
    intro y fuel g hm hf
    obtain ⟨f, rfl⟩ : ∃ f, fuel = f + 1 := ⟨fuel - 1, by omega⟩
    refine ⟨g, ?_, ?_⟩
    · simp only [lineLoopV]
      rw [if_neg (by omega)]
    · intro px py
      rw [if_neg (by omega)]
  | succ k ih =>
    intro y fuel g hm hf
    obtain ⟨f, rfl⟩ : ∃ f, fuel = f + 1 := ⟨fuel - 1, by omega⟩
    have hle : y ≤ y2 := by omega
    have e : (y + 1) % 256 = y + 1 := by omega
    obtain ⟨g', h1, h2⟩ := ih (y + 1) f (OLED_SetPixel x y color g) (by omega) (by omega)
    refine ⟨g', ?_, ?_⟩
    · simp only [lineLoopV]
      rw [if_pos hle, e]
      exact h1
    · intro px py
      rw [h2, OLED_SetPixel_pixel]
      by_cases hA : px = x ∧ y + 1 ≤ py ∧ py ≤ y2 ∧ x < 128 ∧ py < 64
      · have hC : px = x ∧ y ≤ py ∧ py ≤ y2 ∧ x < 128 ∧ py < 64 := by omega
        rw [if_pos hA, if_pos hC]
      · rw [if_neg hA]
        by_cases hB : px = x ∧ py = y ∧ x < 128 ∧ y < 64
        · have hC : px = x ∧ y ≤ py ∧ py ≤ y2 ∧ x < 128 ∧ py < 64 := by omega
          rw [if_pos hB, if_pos hC]
        · have hC : ¬ (px = x ∧ y ≤ py ∧ py ≤ y2 ∧ x < 128 ∧ py < 64) := by omega
          rw [if_neg hB, if_neg hC]

/-- The horizontal loop of `OLED_DrawLine` returns once it has set the pixels of columns
`x .. x2` of row `y`. -/
theorem lineLoopH_spec (x2 y : Nat) (color : OLED_ColorMode) (hx2 : x2 < 255) :
    ∀ (m x fuel : Nat) (g : GRAM), x2 + 1 = x + m → m < fuel →
      ∃ g', lineLoopH fuel x x2 y color g = some g' ∧
        ∀ px py, pixel g' px py
          = if py = y ∧ x ≤ px ∧ px ≤ x2 ∧ px < 128 ∧ y < 64
            then decide (color = OLED_COLOR_NORMAL) else pixel g px py := by
  intro m
  induction m with
  | zero =>
    intro x fuel g hm hf
    obtain ⟨f, rfl⟩ : ∃ f, fuel = f + 1 := ⟨fuel - 1, by omega⟩
    refine ⟨g, ?_, ?_⟩
    · simp only [lineLoopH]
      rw [if_neg (by omega)]
    · intro px py
      rw [if_neg (by omega)]
  | succ k ih =>
    intro x fuel g hm hf
    obtain ⟨f, rfl⟩ : ∃ f, fuel = f + 1 := ⟨fuel - 1, by omega⟩
    have hle : x ≤ x2 := by omega
    have e : (x + 1) % 256 = x + 1 := by omega
    obtain ⟨g', h1, h2⟩ := ih (x + 1) f (OLED_SetPixel x y color g) (by omega) (by omega)
    refine ⟨g', ?_, ?_⟩
    · simp only [lineLoopH]
      rw [if_pos hle, e]
      exact h1
    · intro px py
      rw [h2, OLED_SetPixel_pixel]
      by_cases hA : py = y ∧ x + 1 ≤ px ∧ px ≤ x2 ∧ px < 128 ∧ y < 64
      · have hC : py = y ∧ x ≤ px ∧ px ≤ x2 ∧ px < 128 ∧ y < 64 := by omega
        rw [if_pos hA, if_pos hC]
      · rw [if_neg hA]
        by_cases hB : px = x ∧ py = y ∧ x < 128 ∧ y < 64
        · have hC : py = y ∧ x ≤ px ∧ px ≤ x2 ∧ px < 128 ∧ y < 64 := by omega
          rw [if_pos hB, if_pos hC]
        · have hC : ¬ (py = y ∧ x ≤ px ∧ px ≤ x2 ∧ px < 128 ∧ y < 64) := by omega
          rw [if_neg hB, if_neg hC]

/-- An axis-aligned `OLED_DrawLine` from `(x1, y1)` to `(x2, y2)`, `x1 ≤ x2`, `y1 ≤ y2`,
returns and sets the pixels of the segment, both end points included. -/
theorem OLED_DrawLine_axis (x1 y1 x2 y2 : Nat) (color : OLED_ColorMode) (g : GRAM)
    (hx : x1 ≤ x2) (hy : y1 ≤ y2) (hax : x1 = x2 ∨ y1 = y2) (hx2 : x2 < 255)
    (hy2 : y2 < 255) :
    ∃ g', OLED_DrawLine x1 y1 x2 y2 color g = some g' ∧
      ∀ px py, pixel g' px py
        = if x1 ≤ px ∧ px ≤ x2 ∧ y1 ≤ py ∧ py ≤ y2 ∧ px < 128 ∧ py < 64
          then decide (color = OLED_COLOR_NORMAL) else pixel g px py := by
  unfold OLED_DrawLine
  by_cases hxe : x1 = x2
  · subst hxe
    have hgt : ¬ y1 > y2 := by omega
    simp only [if_true, if_neg hgt]
    obtain ⟨g', h1, h2⟩ := lineLoopV_spec x1 y2 color hy2 (y2 + 1 - y1) y1 loopFuel g
      (by omega) (by simp only [loopFuel]; omega)
    refine ⟨g', h1, ?_⟩
    intro px py
    rw [h2]
    by_cases hA : px = x1 ∧ y1 ≤ py ∧ py ≤ y2 ∧ x1 < 128 ∧ py < 64
    · have hC : x1 ≤ px ∧ px ≤ x1 ∧ y1 ≤ py ∧ py ≤ y2 ∧ px < 128 ∧ py < 64 := by omega
      rw [if_pos hA, if_pos hC]
    · have hC : ¬ (x1 ≤ px ∧ px ≤ x1 ∧ y1 ≤ py ∧ py ≤ y2 ∧ px < 128 ∧ py < 64) := by omega
      rw [if_neg hA, if_neg hC]
  · have hye : y1 = y2 := by omega
    subst hye
    have hgt : ¬ x1 > x2 := by omega
    simp only [if_neg hxe, if_true, if_neg hgt]
    obtain ⟨g', h1, h2⟩ := lineLoopH_spec x2 y1 color hx2 (x2 + 1 - x1) x1 loopFuel g
      (by omega) (by simp only [loopFuel]; omega)
    refine ⟨g', h1, ?_⟩
    intro px py
    rw [h2]
    by_cases hA : py = y1 ∧ x1 ≤ px ∧ px ≤ x2 ∧ px < 128 ∧ y1 < 64
    · have hC : x1 ≤ px ∧ px ≤ x2 ∧ y1 ≤ py ∧ py ≤ y1 ∧ px < 128 ∧ py < 64 := by omega
      rw [if_pos hA, if_pos hC]
    · have hC : ¬ (x1 ≤ px ∧ px ≤ x2 ∧ y1 ≤ py ∧ py ≤ y1 ∧ px < 128 ∧ py < 64) := by omega
      rw [if_neg hA, if_neg hC]

/-- Pixel view of `OLED_DrawFilledRectangle` for `w ≥ 1` inside the display: the call
returns, and the `w × h` pixels from `(x, y)` take the colour. -/
theorem OLED_DrawFilledRectangle_pixel (x y w : Nat) (color : OLED_ColorMode) (g : GRAM)
    (hw : 1 ≤ w) (hxw : x + w ≤ 128) :
    ∀ h, y + h ≤ 64 →
      ∃ g', OLED_DrawFilledRectangle x y w h color g = some g' ∧
        ∀ px py, pixel g' px py
          = if x ≤ px ∧ px < x + w ∧ y ≤ py ∧ py < y + h
            then decide (color = OLED_COLOR_NORMAL) else pixel g px py := by
  intro h
  induction h with
  | zero =>
    intro _
    refine ⟨g, rfl, ?_⟩
    intro px py
    rw [if_neg (by omega)]
  | succ k ih =>
    intro hk
    obtain ⟨g1, h1, h2⟩ := ih (by omega)
    have e1 : (y + k) % 256 = y + k := by omega
    have e2 : (x + w + 255) % 256 = x + w - 1 := by omega
    obtain ⟨g', h3, h4⟩ := OLED_DrawLine_axis x (y + k) (x + w - 1) (y + k) color g1
      (by omega) (by omega) (Or.inr rfl) (by omega) (by omega)
    refine ⟨g', ?_, ?_⟩
    · unfold OLED_DrawFilledRectangle at h1 ⊢
      simp only [forRangeM]
      rw [h1]
      simp only [Option.some_bind, e1, e2]
      exact h3
    · intro px py
      rw [h4, h2]
      by_cases hA : x ≤ px ∧ px ≤ x + w - 1 ∧ y + k ≤ py ∧ py ≤ y + k ∧ px < 128 ∧ py < 64
      · have hC : x ≤ px ∧ px < x + w ∧ y ≤ py ∧ py < y + (k + 1) := by omega
        rw [if_pos hA, if_pos hC]
      · rw [if_neg hA]
        by_cases hB : x ≤ px ∧ px < x + w ∧ y ≤ py ∧ py < y + k
        · have hC : x ≤ px ∧ px < x + w ∧ y ≤ py ∧ py < y + (k + 1) := by omega
          rw [if_pos hB, if_pos hC]
        · have hC : ¬ (x ≤ px ∧ px < x + w ∧ y ≤ py ∧ py < y + (k + 1)) := by omega
          rw [if_neg hB, if_neg hC]

/-- Pixel view of `OLED_DrawRectangle` for `x + w < 128`, `y + h < 64`: the call returns,
and the border of `[x, x+w] × [y, y+h]` takes the colour. -/
theorem OLED_DrawRectangle_pixel (x y w h : Nat) (color : OLED_ColorMode) (g : GRAM)
    (hxw : x + w < 128) (hyh : y + h < 64) :
    ∃ g', OLED_DrawRectangle x y w h color g = some g' ∧
      ∀ px py, pixel g' px py
        = if x ≤ px ∧ px ≤ x + w ∧ y ≤ py ∧ py ≤ y + h ∧
            (px = x ∨ px = x + w ∨ py = y ∨ py = y + h)
          then decide (color = OLED_COLOR_NORMAL) else pixel g px py := by
  have e1 : (x + w) % 256 = x + w := by omega
  have e2 : (y + h) % 256 = y + h := by omega
  obtain ⟨g1, a1, b1⟩ := OLED_DrawLine_axis x y (x + w) y color g
    (by omega) (by omega) (Or.inr rfl) (by omega) (by omega)
  obtain ⟨g2, a2, b2⟩ := OLED_DrawLine_axis x (y + h) (x + w) (y + h) color g1
    (by omega) (by omega) (Or.inr rfl) (by omega) (by omega)
  obtain ⟨g3, a3, b3⟩ := OLED_DrawLine_axis x y x (y + h) color g2
    (by omega) (by omega) (Or.inl rfl) (by omega) (by omega)
  obtain ⟨g4, a4, b4⟩ := OLED_DrawLine_axis (x + w) y (x + w) (y + h) color g3
    (by omega) (by omega) (Or.inl rfl) (by omega) (by omega)
  refine ⟨g4, ?_, ?_⟩
  · unfold OLED_DrawRectangle
    simp only [e1, e2, a1, a2, a3, a4, Option.some_bind]
  · intro px py
    rw [b4, b3, b2, b1]
    by_cases hR : x ≤ px ∧ px ≤ x + w ∧ y ≤ py ∧ py ≤ y + h ∧
        (px = x ∨ px = x + w ∨ py = y ∨ py = y + h)
    · rw [if_pos hR]
      by_cases c4 : x + w ≤ px ∧ px ≤ x + w ∧ y ≤ py ∧ py ≤ y + h ∧ px < 128 ∧ py < 64
      · rw [if_pos c4]
      · rw [if_neg c4]
        by_cases c3 : x ≤ px ∧ px ≤ x ∧ y ≤ py ∧ py ≤ y + h ∧ px < 128 ∧ py < 64
        · rw [if_pos c3]
        · rw [if_neg c3]
          by_cases c2 : x ≤ px ∧ px ≤ x + w ∧ y + h ≤ py ∧ py ≤ y + h ∧ px < 128 ∧ py < 64
          · rw [if_pos c2]
          · have c1 : x ≤ px ∧ px ≤ x + w ∧ y ≤ py ∧ py ≤ y ∧ px < 128 ∧ py < 64 := by omega
            rw [if_neg c2, if_pos c1]
    · have c4 : ¬ (x + w ≤ px ∧ px ≤ x + w ∧ y ≤ py ∧ py ≤ y + h ∧ px < 128 ∧ py < 64) := by
        omega
      have c3 : ¬ (x ≤ px ∧ px ≤ x ∧ y ≤ py ∧ py ≤ y + h ∧ px < 128 ∧ py < 64) := by omega
      have c2 : ¬ (x ≤ px ∧ px ≤ x + w ∧ y + h ≤ py ∧ py ≤ y + h ∧ px < 128 ∧ py < 64) := by
        omega
      have c1 : ¬ (x ≤ px ∧ px ≤ x + w ∧ y ≤ py ∧ py ≤ y ∧ px < 128 ∧ py < 64) := by omega
      rw [if_neg hR, if_neg c4, if_neg c3, if_neg c2, if_neg c1]


/-- The loop of `OLED_DrawLine` for `dx ≤ dy` on a diagonal going down and to the right
(`dx = dy = n`, `ux = uy = 1`): with `m` steps left it returns having set the `m` pixels
`(x + k, y + k)`, `k < m`, and never the pixel of the end row `y + m`. -/
theorem lineLoopY_diagonal (n : Nat) (color : OLED_ColorMode) :
    ∀ (m x y fuel : Nat) (g : GRAM), m < fuel → x + m < 256 → y + m < 256 →
      ∃ g', lineLoopY fuel ((y + m : Nat) : Int) n n 1 1 color (x : Int) (y : Int) 0 g
          = some g' ∧
        ∀ px py, pixel g' px py
          = if x ≤ px ∧ px < x + m ∧ py + x = px + y ∧ px < 128 ∧ py < 64
            then decide (color = OLED_COLOR_NORMAL) else pixel g px py := by
  intro m
  induction m with
  | zero =>
    intro x y fuel g hf _ _
    obtain ⟨f, rfl⟩ : ∃ f, fuel = f + 1 := ⟨fuel - 1, by omega⟩
    refine ⟨g, ?_, ?_⟩
    · simp [lineLoopY]
    · intro px py
      rw [if_neg (by omega)]
  | succ k ih =>
    intro x y fuel g hf hx hy
    obtain ⟨f, rfl⟩ : ∃ f, fuel = f + 1 := ⟨fuel - 1, by omega⟩
    obtain ⟨g', h1, h2⟩ := ih (x + 1) (y + 1) f
      (OLED_SetPixel x y color g) (by omega) (by omega) (by omega)
    have hne : ((y : Nat) : Int) ≠ ((y + (k + 1) : Nat) : Int) := by
      intro h
      have := Int.ofNat_inj.mp h
      omega
    have hx256 : (((x : Nat) : Int) % 256).toNat = x := by omega
    have hy256 : (((y : Nat) : Int) % 256).toNat = y := by omega
    have hge : (0 + (n : Int)) * 2 ≥ (n : Int) := by omega
    have e1 : ((y + 1 + k : Nat) : Int) = ((y + (k + 1) : Nat) : Int) := by
      congr 1
      omega
    refine ⟨g', ?_, ?_⟩
    · rw [lineLoopY]
      simp only [if_pos hne, if_pos hge, hx256, hy256]
      have e2 : (0 : Int) + (n : Int) - (n : Int) = 0 := by omega
      rw [e2, ← e1]
      exact_mod_cast h1
    · intro px py
      rw [h2, OLED_SetPixel_pixel]
      by_cases hA : x + 1 ≤ px ∧ px < x + 1 + k ∧ py + (x + 1) = px + (y + 1) ∧ px < 128 ∧ py < 64
      · have hC : x ≤ px ∧ px < x + (k + 1) ∧ py + x = px + y ∧ px < 128 ∧ py < 64 := by omega
        rw [if_pos hA, if_pos hC]
      · rw [if_neg hA]
        by_cases hB : px = x ∧ py = y ∧ x < 128 ∧ y < 64
        · have hC : x ≤ px ∧ px < x + (k + 1) ∧ py + x = px + y ∧ px < 128 ∧ py < 64 := by
            omega
          rw [if_pos hB, if_pos hC]
        · have hC : ¬ (x ≤ px ∧ px < x + (k + 1) ∧ py + x = px + y ∧ px < 128 ∧ py < 64) := by
            omega
          rw [if_neg hB, if_neg hC]

/-- What `OLED_DrawLine(x, y, x + n, y + n, color)` does for `n ≥ 1`: it returns having set
the `n` pixels `(x + k, y + k)`, `k < n`; the end point `(x + n, y + n)` is not written. -/
theorem OLED_DrawLine_diagonal (x y n : Nat) (color : OLED_ColorMode) (g : GRAM)
    (hn : 1 ≤ n) (hx : x + n < 256) (hy : y + n < 256) :
    ∃ g', OLED_DrawLine x y (x + n) (y + n) color g = some g' ∧
      ∀ px py, pixel g' px py
        = if x ≤ px ∧ px < x + n ∧ py + x = px + y ∧ px < 128 ∧ py < 64
          then decide (color = OLED_COLOR_NORMAL) else pixel g px py := by
  obtain ⟨g', h1, h2⟩ := lineLoopY_diagonal n color n x y loopFuel g
    (by simp only [loopFuel]; omega) hx hy
  refine ⟨g', ?_, h2⟩
  unfold OLED_DrawLine
  have hxe : ¬ x = x + n := by omega
  have hye : ¬ y = y + n := by omega
  have hdx : ((x + n : Nat) : Int) - (x : Int) = (n : Int) := by omega
  have hdy : ((y + n : Nat) : Int) - (y : Int) = (n : Int) := by omega
  have hpos : (n : Int) > 0 := by omega
  have hneg : ¬ (n : Int) < 0 := by omega
  have hgt : ¬ (n : Int) > (n : Int) := by omega
  simp only [if_neg hxe, if_neg hye, hdx, hdy, if_pos hpos, if_neg hneg, if_neg hgt]
  exact h1

/-- C8 at the failing input `OLED_DrawLine(0, 0, 4, 4, NORMAL)` on a cleared framebuffer:
the call returns with exactly `(0,0)`, `(1,1)`, `(2,2)`, `(3,3)` set; the end point `(4,4)`
is not set. -/
theorem C8_OLED_DrawLine_diagonal_misses_endpoint :
    ∃ g', OLED_DrawLine 0 0 4 4 OLED_COLOR_NORMAL OLED_NewFrame = some g' ∧
      pixel g' 4 4 = false ∧
      ∀ px py, px < 128 → py < 64 → (pixel g' px py = true ↔ px = py ∧ px < 4) := by
  obtain ⟨g', h1, h2⟩ := OLED_DrawLine_diagonal 0 0 4 OLED_COLOR_NORMAL OLED_NewFrame
    (by decide) (by decide) (by decide)
  refine ⟨g', h1, ?_, ?_⟩
  · rw [h2, if_neg (by omega)]
    exact pixel_OLED_NewFrame 4 4
  · intro px py _ _
    rw [h2]
    by_cases hR : 0 ≤ px ∧ px < 0 + 4 ∧ py + 0 = px + 0 ∧ px < 128 ∧ py < 64
    · rw [if_pos hR]
      simp only [decide_True, true_iff]
      omega
    · rw [if_neg hR, pixel_OLED_NewFrame]
      simp only [Bool.false_eq_true, false_iff]
      omega

/-- C9: for `w ≥ 1`, `x + w ≤ 128` and `y + h ≤ 64`, `OLED_DrawFilledRectangle(x, y, w, h,
NORMAL)` on a cleared framebuffer returns and leaves set exactly the pixels of
`{x..x+w-1} × {y..y+h-1}`, which are `w * h` in number. -/
theorem C9_OLED_DrawFilledRectangle_exact (x y w h : Nat) (hw : 1 ≤ w) (hxw : x + w ≤ 128)
    (hyh : y + h ≤ 64) :
    ∃ g', OLED_DrawFilledRectangle x y w h OLED_COLOR_NORMAL OLED_NewFrame = some g' ∧
      (∀ px py, px < 128 → py < 64 →
        (pixel g' px py = true ↔ x ≤ px ∧ px < x + w ∧ y ≤ py ∧ py < y + h)) ∧
      ((Finset.range 128 ×ˢ Finset.range 64).filter
        (fun p => pixel g' p.1 p.2 = true)).card = w * h := by
  obtain ⟨g', h1, h2⟩ :=
    OLED_DrawFilledRectangle_pixel x y w OLED_COLOR_NORMAL OLED_NewFrame hw hxw h hyh
  have hpix : ∀ px py,
      (pixel g' px py = true ↔ x ≤ px ∧ px < x + w ∧ y ≤ py ∧ py < y + h) := by
    intro px py
    rw [h2]
    by_cases hR : x ≤ px ∧ px < x + w ∧ y ≤ py ∧ py < y + h
    · simp [hR]
    · simp [hR, pixel_OLED_NewFrame]
  refine ⟨g', h1, fun px py _ _ => hpix px py, ?_⟩
  have hset : (Finset.range 128 ×ˢ Finset.range 64).filter (fun p => pixel g' p.1 p.2 = true)
      = Finset.Ico x (x + w) ×ˢ Finset.Ico y (y + h) := by
    ext ⟨a, b⟩
    simp only [Finset.mem_filter, Finset.mem_product, Finset.mem_range, Finset.mem_Ico, hpix]
    omega
  rw [hset, Finset.card_product, Nat.card_Ico, Nat.card_Ico, Nat.add_sub_cancel_left,
    Nat.add_sub_cancel_left]

/-- Witness of C9: the filled rectangle at `(10, 10)` of width 5 and height 3 is
`{10..14} × {10, 11, 12}`. -/
theorem C9_OLED_DrawFilledRectangle_exact_witness :
    ∃ g', OLED_DrawFilledRectangle 10 10 5 3 OLED_COLOR_NORMAL OLED_NewFrame = some g' ∧
      (∀ px py, px < 128 → py < 64 →
        (pixel g' px py = true ↔ 10 ≤ px ∧ px < 10 + 5 ∧ 10 ≤ py ∧ py < 10 + 3)) ∧
      ((Finset.range 128 ×ˢ Finset.range 64).filter
        (fun p => pixel g' p.1 p.2 = true)).card = 5 * 3 :=
  C9_OLED_DrawFilledRectangle_exact 10 10 5 3 (by decide) (by decide) (by decide)

/-- C10: for `x + w < 128` and `y + h < 64`, `OLED_DrawRectangle(x, y, w, h, NORMAL)` on a
cleared framebuffer returns and leaves set exactly the border of the `(w+1) × (h+1)`
rectangle `[x, x+w] × [y, y+h]`: its pixels with `px = x`, `px = x + w`, `py = y` or
`py = y + h`. -/
theorem C10_OLED_DrawRectangle_border (x y w h : Nat) (hxw : x + w < 128) (hyh : y + h < 64) :
    ∃ g', OLED_DrawRectangle x y w h OLED_COLOR_NORMAL OLED_NewFrame = some g' ∧
      ∀ px py, px < 128 → py < 64 →
        (pixel g' px py = true ↔
          x ≤ px ∧ px ≤ x + w ∧ y ≤ py ∧ py ≤ y + h ∧
            (px = x ∨ px = x + w ∨ py = y ∨ py = y + h)) := by
  obtain ⟨g', h1, h2⟩ :=
    OLED_DrawRectangle_pixel x y w h OLED_COLOR_NORMAL OLED_NewFrame hxw hyh
  refine ⟨g', h1, ?_⟩
  intro px py _ _
  rw [h2]
  by_cases hR : x ≤ px ∧ px ≤ x + w ∧ y ≤ py ∧ py ≤ y + h ∧
      (px = x ∨ px = x + w ∨ py = y ∨ py = y + h)
  · simp [hR]
  · simp [hR, pixel_OLED_NewFrame]

/-- Witness of C10: the outline at `(3, 4)` with `w = 6`, `h = 2` has its far corner at
`(9, 6)`. -/
theorem C10_OLED_DrawRectangle_border_witness :
    ∃ g', OLED_DrawRectangle 3 4 6 2 OLED_COLOR_NORMAL OLED_NewFrame = some g' ∧
      ∀ px py, px < 128 → py < 64 →
        (pixel g' px py = true ↔
          3 ≤ px ∧ px ≤ 3 + 6 ∧ 4 ≤ py ∧ py ≤ 4 + 2 ∧
            (px = 3 ∨ px = 3 + 6 ∨ py = 4 ∨ py = 4 + 2)) :=
  C10_OLED_DrawRectangle_border 3 4 6 2 (by decide) (by decide)

/-! ## Circles, triangles and termination: claims C11, C12, C13 -/

/-- C11 at the failing input `OLED_DrawCircle(10, 10, 0, NORMAL)` on a cleared framebuffer:
the call returns with the centre `(10, 10)` set and also with the pixel `(11, 9)` set, which
the call after the update, `OLED_SetPixel(x + a, y + b, color)` with `a = 1`, `b = -1`,
writes. -/
theorem C11_OLED_DrawCircle_radius_zero_extra_pixel :
    (OLED_DrawCircle 10 10 0 OLED_COLOR_NORMAL OLED_NewFrame).map
        (fun g => (pixel g 10 10, pixel g 11 9)) = some (true, true) ∧
    pixel OLED_NewFrame 11 9 = false := by
  set_option maxRecDepth 100000 in decide

/-- The sibling `OLED_DrawFilledCircle(10, 10, 0, NORMAL)` on a cleared framebuffer sets the
centre and leaves `(11, 9)` alone. -/
theorem OLED_DrawFilledCircle_radius_zero :
    (OLED_DrawFilledCircle 10 10 0 OLED_COLOR_NORMAL OLED_NewFrame).map
        (fun g => (pixel g 10 10, pixel g 11 9)) = some (true, false) := by
  set_option maxRecDepth 100000 in decide

/-- C12 at the failing input `OLED_DrawFilledTriangle(0, 0, 10, 10, 20, 5, NORMAL)`: the
three `y` coordinates 0, 10, 5 are pairwise distinct and all coordinates lie inside the
display, and the call evaluates a division by zero (`y3 - last` with `last = y3 = 5`, in
the second loop at `y = 6`). -/
theorem C12_OLED_DrawFilledTriangle_divides_by_zero :
    (OLED_DrawFilledTriangle 0 0 10 10 20 5 OLED_COLOR_NORMAL OLED_NewFrame).isDivisionByZero
      = true ∧
    ((0 : Nat) ≠ 10 ∧ (0 : Nat) ≠ 5 ∧ (10 : Nat) ≠ 5) := by
  set_option maxRecDepth 100000 in decide

/-- The vertical loop of `OLED_DrawLine` with `y2 = 255` never ends: whatever the fuel, the
test `y <= 255` succeeds for the 8-bit counter. -/
theorem lineLoopV_255 (color : OLED_ColorMode) :
    ∀ (fuel x y : Nat) (g : GRAM), y < 256 → lineLoopV fuel x y 255 color g = none := by
  intro fuel
  induction fuel with
  | zero =>
    intro x y g _
    rfl
  | succ f ih =>
    intro x y g hy
    have hle : y ≤ 255 := by omega
    simp only [lineLoopV, if_pos hle]
    exact ih x ((y + 1) % 256) _ (Nat.mod_lt _ (by decide))

/-- C13 at the failing input `OLED_DrawLine(0, 0, 0, 255, NORMAL)`: the vertical loop
`for (uint8_t y = y1; y <= y2; y++)` does not end for any amount of fuel, and the call does
not return. -/
theorem C13_OLED_DrawLine_vertical_to_255_never_returns :
    (∀ fuel, lineLoopV fuel 0 0 255 OLED_COLOR_NORMAL OLED_NewFrame = none) ∧
    OLED_DrawLine 0 0 0 255 OLED_COLOR_NORMAL OLED_NewFrame = none := by
  refine ⟨fun fuel => lineLoopV_255 _ fuel 0 0 _ (by decide), ?_⟩
  unfold OLED_DrawLine
  simp only [if_true, show ¬ (0 > 255) by decide, if_false]
  exact lineLoopV_255 _ loopFuel 0 0 _ (by decide)

/-! ## Sending the frame: claims C14, C15 -/

/-- The messages of `OLED_ShowFrame`: after what was sent before, the four messages of page
0, then those of page 1, and so on up to page 7. -/
theorem OLED_ShowFrame_sent (g : GRAM) (sent : List (List Nat)) :
    OLED_ShowFrame g sent
      = (g, sent ++ (List.range 8).flatMap (fun i => pageMessages g i)) := by
  have hr : List.range 8 = [0, 1, 2, 3, 4, 5, 6, 7] := rfl
  have hlen : ∀ i, (0x40 :: (List.range 128).map (fun c => g i c)).take 129
      = 0x40 :: (List.range 128).map (fun c => g i c) := by
    intro i
    apply List.take_of_length_le
    simp
  simp only [OLED_ShowFrame, OLED_PAGE, showFramePages, OLED_PageSet, OLED_SetColumn,
    OLED_SendCmd, OLED_Send, OLED_COLUMN, OLED_COLUMN_OFFSET, pageMessages, hr,
    List.flatMap_cons, List.flatMap_nil]
  have e1 : (16 ||| 2 >>> 4) % 256 = 16 := by decide
  have e2 : (2 &&& 15) % 256 = 2 := by decide
  norm_num [hlen, e1, e2]

/-- C14: `OLED_ShowFrame` sends, for the pages `i = 0, 1, ..., 7` in this order, exactly the
four messages `[0x00, 0xB0 + i]`, `[0x00, 0x10]`, `[0x00, 0x02]` and the 129-byte data frame
`0x40` followed by `GRAM[i][0..127]`; these 32 messages are all it sends, and the
framebuffer is unchanged. -/
theorem C14_OLED_ShowFrame_messages (g : GRAM) (sent : List (List Nat)) :
    (OLED_ShowFrame g sent).2
      = sent ++ (List.range 8).flatMap (fun i =>
          [[0x00, 0xB0 + i], [0x00, 0x10], [0x00, 0x02],
            0x40 :: (List.range 128).map (fun c => g i c)]) ∧
    ((List.range 8).flatMap (fun i =>
          [[0x00, 0xB0 + i], [0x00, 0x10], [0x00, 0x02],
            0x40 :: (List.range 128).map (fun c => g i c)])).length = 32 ∧
    (∀ i, (0x40 :: (List.range 128).map (fun c => g i c)).length = 129) ∧
    (OLED_ShowFrame g sent).1 = g := by
  rw [OLED_ShowFrame_sent]
  refine ⟨rfl, rfl, ?_, rfl⟩
  intro i
  simp

/-- C15: after `OLED_NewFrame` every byte of the framebuffer is 0, and a following
`OLED_ShowFrame` sends for each of the 8 pages a data frame whose 128 bytes after the prefix
`0x40` are all 0. -/
theorem C15_OLED_NewFrame_then_ShowFrame (sent : List (List Nat)) :
    (∀ p c, OLED_NewFrame p c = 0) ∧
    (OLED_ShowFrame OLED_NewFrame sent).2
      = sent ++ (List.range 8).flatMap (fun i =>
          [[0x00, 0xB0 + i], [0x00, 0x10], [0x00, 0x02], 0x40 :: List.replicate 128 0]) := by
  refine ⟨fun _ _ => rfl, ?_⟩
  rw [OLED_ShowFrame_sent]
  have h : ∀ i, pageMessages OLED_NewFrame i
      = [[0x00, 0xB0 + i], [0x00, 0x10], [0x00, 0x02], 0x40 :: List.replicate 128 0] := by
    intro i
    simp only [pageMessages, OLED_NewFrame]
    congr 4
  simp only [h]

/-! ## Text: claims C16, C17, C18, C19 -/

theorem strAt_append_left (a b : List Nat) (k : Nat) (h : k < a.length) :
    strAt (a ++ b) k = strAt a k :=
  List.getD_append a b 0 k h

theorem strAt_append_right (a b : List Nat) (k : Nat) :
    strAt (a ++ b) (a.length + k) = strAt b k := by
  unfold strAt
  rw [List.getD_append_right a b 0 (a.length + k) (by omega), Nat.add_sub_cancel_left]

theorem strAt_length (a : List Nat) : strAt a a.length = 0 :=
  List.getD_eq_default a 0 (Nat.le_refl _)

theorem memEq_iff (a b : Nat → Nat) (n : Nat) :
    memEq a b n = true ↔ ∀ k, k < n → a k = b k := by
  simp [memEq, List.all_eq_true]

theorem memEq_congr (a a1 b : Nat → Nat) (n : Nat) (h : ∀ k, k < n → a k = a1 k) :
    memEq a b n = memEq a1 b n := by
  rw [Bool.eq_iff_iff, memEq_iff, memEq_iff]
  constructor
  · intro h1 k hk
    rw [← h k hk]
    exact h1 k hk
  · intro h1 k hk
    rw [h k hk]
    exact h1 k hk

theorem findGlyph_congr (font : Font) (key key1 : Nat → Nat) (n : Nat)
    (h : ∀ k, k < n → key k = key1 k) :
    ∀ count j, findGlyph font key n j count = findGlyph font key1 n j count := by
  intro count
  induction count with
  | zero =>
    intro j
    rfl
  | succ c ih =>
    intro j
    simp only [findGlyph]
    rw [memEq_congr key key1 _ n h, ih (j + 1)]

/-- One iteration of the loop of `OLED_PrintString` at a character of `n` bytes. -/
theorem printLoop_step (f : Nat) (str : List Nat) (font : Font) (color : OLED_ColorMode)
    (x y i : Nat) (g : GRAM) (b n : Nat) (key : Nat → Nat) (hb : strAt str i = b)
    (hb0 : b ≠ 0) (hn : _OLED_GetUTF8Len b = n) (hn0 : n ≠ 0)
    (hkey : ∀ k, k < n → strAt str (i + k) = key k) :
    printLoop (f + 1) str font color x y i g
      = printLoop f str font color (charDraw font color x y g b n key).1 y
          ((i + n) % 65536) (charDraw font color x y g b n key).2 := by
  rw [printLoop]
  simp only [hb, hn, if_neg hb0, if_neg hn0, charDraw]
  rw [findGlyph_congr font (fun k => strAt str (i + k)) key n hkey]
  cases findGlyph font key n 0 font.len with
  | some j => rfl
  | none =>
    by_cases h1 : n = 1
    · simp only [h1, if_true]
    · simp only [h1, if_false]

/-- The loop of `OLED_PrintString` runs alike on `pre ++ q` and on `pre ++ q ++ c :: rest`
from the index behind `pre`, when `q` is made of complete characters and `c` is a byte that
starts no character: both runs return the same framebuffer. -/
theorem printLoop_stops_at_unrecognised (font : Font) (color : OLED_ColorMode) (c : Nat)
    (rest : List Nat) (hc0 : c ≠ 0) (hc : _OLED_GetUTF8Len c = 0) (y : Nat) :
    ∀ q, CompleteChars q → ∀ (pre : List Nat), (pre ++ q).length < 65536 →
      ∀ (fuel x : Nat) (g : GRAM), q.length < fuel →
        ∃ g', printLoop fuel (pre ++ q ++ c :: rest) font color x y pre.length g = some g' ∧
          printLoop fuel (pre ++ q) font color x y pre.length g = some g' := by
  intro q hq
  induction hq with
  | nil =>
    intro pre _ fuel x g hf
    obtain ⟨f, rfl⟩ : ∃ f, fuel = f + 1 := ⟨fuel - 1, by omega⟩
    refine ⟨g, ?_, ?_⟩
    · have h1 : strAt (pre ++ [] ++ c :: rest) pre.length = c := by
        have := strAt_append_right (pre ++ []) (c :: rest) 0
        simpa [strAt] using this
      rw [printLoop]
      simp only [h1, if_neg hc0, hc, if_true]
    · have h2 : strAt (pre ++ []) pre.length = 0 := by
        rw [List.append_nil]
        exact strAt_length pre
      rw [printLoop]
      simp only [h2, if_true]
  | cons b ch q1 hlen _ ih =>
    intro pre hpre fuel x g hf
    obtain ⟨f, rfl⟩ : ∃ f, fuel = f + 1 := ⟨fuel - 1, by omega⟩
    have hA : pre ++ (b :: ch ++ q1) ++ c :: rest = (pre ++ (b :: ch)) ++ q1 ++ c :: rest := by
      simp
    have hB : pre ++ (b :: ch ++ q1) = (pre ++ (b :: ch)) ++ q1 := by
      simp
    have hlenq : (b :: ch ++ q1).length = (b :: ch).length + q1.length := by
      simp
      omega
    have hlenp : (pre ++ (b :: ch ++ q1)).length = pre.length + (b :: ch ++ q1).length :=
      List.length_append _ _
    have hlen1 : (pre ++ (b :: ch)).length = pre.length + (b :: ch).length :=
      List.length_append _ _
    have hpos : 1 ≤ (b :: ch).length := by simp
    -- the bytes of the character, read in either string
    have hkeyB : ∀ k, k < (b :: ch).length →
        strAt (pre ++ (b :: ch ++ q1)) (pre.length + k) = strAt (b :: ch) k := by
      intro k hk
      rw [hB, List.append_assoc, strAt_append_right, strAt_append_left _ _ _ hk]
    have hkeyA : ∀ k, k < (b :: ch).length →
        strAt (pre ++ (b :: ch ++ q1) ++ c :: rest) (pre.length + k) = strAt (b :: ch) k := by
      intro k hk
      rw [strAt_append_left _ _ _ (by rw [hlenp, hlenq]; omega)]
      exact hkeyB k hk
    have hbA : strAt (pre ++ (b :: ch ++ q1) ++ c :: rest) pre.length = b := by
      have := hkeyA 0 hpos
      simpa [strAt] using this
    have hbB : strAt (pre ++ (b :: ch ++ q1)) pre.length = b := by
      have := hkeyB 0 hpos
      simpa [strAt] using this
    by_cases hb0 : b = 0
    · refine ⟨g, ?_, ?_⟩
      · rw [printLoop, hbA, if_pos hb0]
      · rw [printLoop, hbB, if_pos hb0]
    · have hn0 : (b :: ch).length ≠ 0 := by omega
      have hidx : (pre.length + (b :: ch).length) % 65536 = (pre ++ (b :: ch)).length := by
        rw [hlen1]
        apply Nat.mod_eq_of_lt
        rw [hlenp, hlenq] at hpre
        omega
      rw [printLoop_step f _ font color x y pre.length g b _ (fun k => strAt (b :: ch) k) hbA
          hb0 hlen hn0 hkeyA,
        printLoop_step f _ font color x y pre.length g b _ (fun k => strAt (b :: ch) k) hbB
          hb0 hlen hn0 hkeyB, hidx, hA, hB]
      apply ih
      · rw [← hB]
        exact hpre
      · rw [hlenq] at hf
        omega

/-- The values of `_OLED_GetUTF8Len` on the 256 bytes. -/
theorem OLED_GetUTF8Len_table :
    ∀ b, b < 256 →
      (_OLED_GetUTF8Len b = 0 ↔ (0x80 ≤ b ∧ b ≤ 0xBF) ∨ (0xF8 ≤ b ∧ b ≤ 0xFF)) ∧
      (b ≤ 0x7F → _OLED_GetUTF8Len b = 1) ∧
      (0xC0 ≤ b → b ≤ 0xDF → _OLED_GetUTF8Len b = 2) ∧
      (0xE0 ≤ b → b ≤ 0xEF → _OLED_GetUTF8Len b = 3) ∧
      (0xF0 ≤ b → b ≤ 0xF7 → _OLED_GetUTF8Len b = 4) := by
  set_option maxRecDepth 100000 in decide

/-- C16 at a failing input: the font `font48Stray` (48 × 48 glyphs, entries of 292 bytes)
has no entry whose key starts with `C3 A9`, yet `OLED_PrintString(0, 0, "\xC3\xA9", font,
NORMAL)` on a cleared framebuffer finds a match at offset 36 (entry 1 at the truncated
stride `292 mod 256`) and draws the bytes from offset 40 on, which sets the pixel `(0, 0)`;
the blank ASCII glyph followed by the rest of the string leaves `(0, 0)` off. -/
theorem C16_OLED_PrintString_absent_sequence_large_font :
    (∀ j, j < font48Stray.len →
      memEq (fun k => strAt [0xC3, 0xA9] k)
        (fun k => font48Stray.chars
          (j * (4 + (font48Stray.h + 7) / 8 * font48Stray.w) + k)) 2 = false) ∧
    (OLED_PrintString 0 0 ([0xC3, 0xA9] ++ []) font48Stray OLED_COLOR_NORMAL
        OLED_NewFrame).map (fun g => pixel g 0 0) = some true ∧
    (OLED_PrintString ((0 + font48Stray.ascii.w) % 256) 0 [] font48Stray OLED_COLOR_NORMAL
        (OLED_PrintASCIIChar 0 0 32 font48Stray.ascii OLED_COLOR_NORMAL OLED_NewFrame)).map
        (fun g => pixel g 0 0) = some false := by
  set_option maxRecDepth 1000000 in decide

/-- C18 at a failing input: for the 48 × 48 font `font48Second` the entries are 292 bytes
apart, but `oneLen` is 36, so the key compared for entry 1 starts at offset 36 and not at
offset 292: the key `C3 A9`, which entry 1 has at offset 292, is not found. -/
theorem C18_OLED_PrintString_stride_truncated :
    4 + (font48Second.h + 7) / 8 * font48Second.w = 292 ∧
    oneLen font48Second = 36 ∧
    1 * oneLen font48Second ≠ 1 * (4 + (font48Second.h + 7) / 8 * font48Second.w) ∧
    memEq (fun k => strAt [0xC3, 0xA9] k) (fun k => font48Second.chars (1 * 292 + k)) 2
      = true ∧
    findGlyph font48Second (fun k => strAt [0xC3, 0xA9] k) 2 0 font48Second.len = none := by
  decide

/-- C19 at a failing input: in the font `font48Second` entry 1 (at offset 292) is the first
entry whose key starts with `C3 A9`, and its bitmap would set the pixel `(0, 0)`; but
`OLED_PrintString(0, 0, "\xC3\xA9", font, NORMAL)` on a cleared framebuffer looks for
entry 1 at offset 36, finds no match and draws the blank ASCII glyph: `(0, 0)` stays off. -/
theorem C19_OLED_PrintString_first_match_large_font :
    memEq (fun k => strAt [0xC3, 0xA9] k) (fun k => font48Second.chars (0 * 292 + k)) 2
      = false ∧
    memEq (fun k => strAt [0xC3, 0xA9] k) (fun k => font48Second.chars (1 * 292 + k)) 2
      = true ∧
    (OLED_PrintString 0 0 ([0xC3, 0xA9] ++ []) font48Second OLED_COLOR_NORMAL
        OLED_NewFrame).map (fun g => pixel g 0 0) = some false ∧
    (OLED_PrintString ((0 + font48Second.w) % 256) 0 [] font48Second OLED_COLOR_NORMAL
        (OLED_SetBlock 0 0 (fun k => font48Second.chars (1 * 292 + 4 + k)) font48Second.w
          font48Second.h OLED_COLOR_NORMAL OLED_NewFrame)).map
        (fun g => pixel g 0 0) = some true := by
  set_option maxRecDepth 1000000 in decide

theorem OLED_GetUTF8Len_le (b : Nat) : _OLED_GetUTF8Len b ≤ 4 := by
  unfold _OLED_GetUTF8Len
  split_ifs <;> omega

theorem OLED_GetUTF8Len_zero : _OLED_GetUTF8Len 0 = 1 := by
  decide

theorem strAt_lt_of_ne_zero (r : List Nat) (i : Nat) (h : strAt r i ≠ 0) : i < r.length := by
  by_contra hn
  exact h (List.getD_eq_default r 0 (by omega))

/-- When the stride `4 + ceil(h/8) * w` is below 256, `oneLen` is that stride. -/
theorem oneLen_of_small (font : Font) (h : 4 + (font.h + 7) / 8 * font.w < 256) :
    oneLen font = 4 + (font.h + 7) / 8 * font.w := by
  unfold oneLen
  rw [Nat.add_comm, Nat.mod_eq_of_lt h]

/-- The search loop finds nothing when no entry it looks at has the key. -/
theorem findGlyph_eq_none (font : Font) (key : Nat → Nat) (n : Nat) :
    ∀ count j,
      (∀ t, t < count →
        memEq key (fun k => font.chars ((j + t) * oneLen font + k)) n = false) →
      findGlyph font key n j count = none := by
  intro count
  induction count with
  | zero =>
    intro j _
    rfl
  | succ c ih =>
    intro j h
    have h0 := h 0 (by omega)
    rw [Nat.add_zero] at h0
    simp only [findGlyph, h0, Bool.false_eq_true, if_false]
    apply ih
    intro t ht
    have e : j + 1 + t = j + (t + 1) := by omega
    rw [e]
    exact h (t + 1) (by omega)

/-- The search loop breaks at the first entry that has the key. -/
theorem findGlyph_eq_some (font : Font) (key : Nat → Nat) (n : Nat) :
    ∀ count j m, m < count →
      (∀ t, t < m →
        memEq key (fun k => font.chars ((j + t) * oneLen font + k)) n = false) →
      memEq key (fun k => font.chars ((j + m) * oneLen font + k)) n = true →
      findGlyph font key n j count = some (j + m) := by
  intro count
  induction count with
  | zero =>
    intro j m hm _ _
    omega
  | succ c ih =>
    intro j m hm hbefore hat
    cases m with
    | zero =>
      rw [Nat.add_zero] at hat
      simp only [findGlyph, hat, if_true, Nat.add_zero]
    | succ m1 =>
      have h0 := hbefore 0 (by omega)
      rw [Nat.add_zero] at h0
      simp only [findGlyph, h0, Bool.false_eq_true, if_false]
      have e : j + (m1 + 1) = j + 1 + m1 := by omega
      rw [e]
      apply ih (j + 1) m1 (by omega)
      · intro t ht
        have e1 : j + 1 + t = j + (t + 1) := by omega
        rw [e1]
        exact hbefore (t + 1) (by omega)
      · rw [← e]
        exact hat

/-- The loop of `OLED_PrintString` on `pre ++ r` from the index `|pre| + i` does what the
loop on `r` does from the index `i`, and both return, when the 16-bit index cannot wrap. -/
theorem printLoop_shift (font : Font) (color : OLED_ColorMode) (y : Nat) (pre r : List Nat)
    (hlen : (pre ++ r).length + 3 < 65536) :
    ∀ (d i x : Nat) (g : GRAM) (fuel1 fuel2 : Nat), r.length ≤ i + d → d < fuel1 →
      d < fuel2 →
      ∃ g', printLoop fuel1 (pre ++ r) font color x y (pre.length + i) g = some g' ∧
        printLoop fuel2 r font color x y i g = some g' := by
  have hlen' : pre.length + r.length + 3 < 65536 := by
    rw [List.length_append] at hlen
    exact hlen
  intro d
  induction d with
  | zero =>
    intro i x g fuel1 fuel2 hi h1 h2
    obtain ⟨f1, rfl⟩ : ∃ f, fuel1 = f + 1 := ⟨fuel1 - 1, by omega⟩
    obtain ⟨f2, rfl⟩ : ∃ f, fuel2 = f + 1 := ⟨fuel2 - 1, by omega⟩
    have e2 : strAt r i = 0 := List.getD_eq_default r 0 (by omega)
    have e1 : strAt (pre ++ r) (pre.length + i) = 0 := by
      rw [strAt_append_right]
      exact e2
    refine ⟨g, ?_, ?_⟩
    · rw [printLoop, e1, if_pos rfl]
    · rw [printLoop, e2, if_pos rfl]
  | succ d1 ih =>
    intro i x g fuel1 fuel2 hi h1 h2
    obtain ⟨f1, rfl⟩ : ∃ f, fuel1 = f + 1 := ⟨fuel1 - 1, by omega⟩
    obtain ⟨f2, rfl⟩ : ∃ f, fuel2 = f + 1 := ⟨fuel2 - 1, by omega⟩
    have e1 : strAt (pre ++ r) (pre.length + i) = strAt r i := strAt_append_right pre r i
    by_cases hb0 : strAt r i = 0
    · refine ⟨g, ?_, ?_⟩
      · rw [printLoop, e1, if_pos hb0]
      · rw [printLoop, if_pos hb0]
    · by_cases hn0 : _OLED_GetUTF8Len (strAt r i) = 0
      · refine ⟨g, ?_, ?_⟩
        · rw [printLoop, e1, if_neg hb0]
          simp only [hn0, if_true]
        · rw [printLoop, if_neg hb0]
          simp only [hn0, if_true]
      · have hir : i < r.length := strAt_lt_of_ne_zero r i hb0
        have hn4 := OLED_GetUTF8Len_le (strAt r i)
        have hk1 : ∀ k, k < _OLED_GetUTF8Len (strAt r i) →
            strAt (pre ++ r) (pre.length + i + k) = strAt r (i + k) := by
          intro k _
          rw [Nat.add_assoc, strAt_append_right]
        have hidx1 : (pre.length + i + _OLED_GetUTF8Len (strAt r i)) % 65536
            = pre.length + (i + _OLED_GetUTF8Len (strAt r i)) := by
          rw [Nat.add_assoc]
          apply Nat.mod_eq_of_lt
          omega
        have hidx2 : (i + _OLED_GetUTF8Len (strAt r i)) % 65536
            = i + _OLED_GetUTF8Len (strAt r i) := by
          apply Nat.mod_eq_of_lt
          omega
        rw [printLoop_step f1 (pre ++ r) font color x y (pre.length + i) g (strAt r i) _
            (fun k => strAt r (i + k)) e1 hb0 rfl hn0 hk1,
          printLoop_step f2 r font color x y i g (strAt r i) _
            (fun k => strAt r (i + k)) rfl hb0 rfl hn0 (fun _ _ => rfl), hidx1, hidx2]
        apply ih
        · omega
        · omega
        · omega

/-- What C16 says holds when the stride fits in 8 bits: for a font with
`4 + ceil(h/8) * w < 256`, a string `seq ++ rest` (with room for the 16-bit index) whose
first character `seq` has `n ≥ 2` bytes and is the key of no entry, `OLED_PrintString`
returns the framebuffer of `OLED_PrintASCIIChar(x, y, ' ', font.ascii, mode)` followed by
`OLED_PrintString(x + font.ascii.w, y, rest, font, mode)`. -/
theorem OLED_PrintString_absent_sequence (x y b : Nat) (ch rest : List Nat) (font : Font)
    (color : OLED_ColorMode) (g : GRAM)
    (hn : _OLED_GetUTF8Len b = (b :: ch).length) (hmulti : (b :: ch).length ≠ 1)
    (hstride : 4 + (font.h + 7) / 8 * font.w < 256)
    (habsent : ∀ j, j < font.len →
      memEq (fun k => strAt (b :: ch) k)
        (fun k => font.chars (j * (4 + (font.h + 7) / 8 * font.w) + k)) (b :: ch).length
        = false)
    (hlen : ((b :: ch) ++ rest).length + 3 < 65536) :
    ∃ g', OLED_PrintString x y ((b :: ch) ++ rest) font color g = some g' ∧
      OLED_PrintString ((x + font.ascii.w) % 256) y rest font color
        (OLED_PrintASCIIChar x y 32 font.ascii color g) = some g' := by
  have hb0 : b ≠ 0 := by
    intro h
    rw [h, OLED_GetUTF8Len_zero] at hn
    exact hmulti hn.symm
  have hn0 : (b :: ch).length ≠ 0 := by simp
  have hfind : findGlyph font (fun k => strAt (b :: ch) k) (b :: ch).length 0 font.len
      = none := by
    apply findGlyph_eq_none
    intro t ht
    rw [Nat.zero_add, oneLen_of_small font hstride]
    exact habsent t ht
  have hdraw : charDraw font color x y g b (b :: ch).length (fun k => strAt (b :: ch) k)
      = ((x + font.ascii.w) % 256, OLED_PrintASCIIChar x y 32 font.ascii color g) := by
    simp only [charDraw, hfind, if_neg hmulti]
  have hlen2 : (b :: ch).length + rest.length + 3 < 65536 := by
    rw [List.length_append] at hlen
    exact hlen
  have hidx : (b :: ch).length % 65536 = (b :: ch).length := Nat.mod_eq_of_lt (by omega)
  obtain ⟨g', h1, h2⟩ := printLoop_shift font color y (b :: ch) rest hlen rest.length 0
    ((x + font.ascii.w) % 256) (OLED_PrintASCIIChar x y 32 font.ascii color g) 65535 loopFuel
    (by omega) (by omega) (by simp only [loopFuel]; omega)
  refine ⟨g', ?_, ?_⟩
  · unfold OLED_PrintString
    have hfuel : loopFuel = 65535 + 1 := rfl
    rw [hfuel, printLoop_step 65535 _ font color x y 0 g b (b :: ch).length
      (fun k => strAt (b :: ch) k) (by simp [strAt]) hb0 hn hn0
      (fun k hk => by rw [Nat.zero_add]; exact strAt_append_left _ _ _ hk), hdraw,
      Nat.zero_add, hidx]
    rw [Nat.add_zero] at h1
    exact h1
  · exact h2

/-- What C19 says holds when the stride fits in 8 bits: for a font with
`4 + ceil(h/8) * w < 256` in which `j` is the smallest index whose entry has the bytes of
the first character `seq` as key, `OLED_PrintString` on `seq ++ rest` returns the
framebuffer of `OLED_SetBlock(x, y, bitmap of entry j, font.w, font.h, mode)` followed by
`OLED_PrintString(x + font.w, y, rest, font, mode)`. -/
theorem OLED_PrintString_first_match (x y b j : Nat) (ch rest : List Nat) (font : Font)
    (color : OLED_ColorMode) (g : GRAM)
    (hn : _OLED_GetUTF8Len b = (b :: ch).length) (hb0 : b ≠ 0)
    (hstride : 4 + (font.h + 7) / 8 * font.w < 256) (hj : j < font.len)
    (hbefore : ∀ t, t < j →
      memEq (fun k => strAt (b :: ch) k)
        (fun k => font.chars (t * (4 + (font.h + 7) / 8 * font.w) + k)) (b :: ch).length
        = false)
    (hat : memEq (fun k => strAt (b :: ch) k)
        (fun k => font.chars (j * (4 + (font.h + 7) / 8 * font.w) + k)) (b :: ch).length
        = true)
    (hlen : ((b :: ch) ++ rest).length + 3 < 65536) :
    ∃ g', OLED_PrintString x y ((b :: ch) ++ rest) font color g = some g' ∧
      OLED_PrintString ((x + font.w) % 256) y rest font color
        (OLED_SetBlock x y
          (fun k => font.chars (j * (4 + (font.h + 7) / 8 * font.w) + 4 + k))
          font.w font.h color g) = some g' := by
  have hn0 : (b :: ch).length ≠ 0 := by simp
  have hfind : findGlyph font (fun k => strAt (b :: ch) k) (b :: ch).length 0 font.len
      = some j := by
    have := findGlyph_eq_some font (fun k => strAt (b :: ch) k) (b :: ch).length font.len 0 j
      hj
      (by
        intro t ht
        rw [Nat.zero_add, oneLen_of_small font hstride]
        exact hbefore t ht)
      (by
        rw [Nat.zero_add, oneLen_of_small font hstride]
        exact hat)
    rw [Nat.zero_add] at this
    exact this
  have hdraw : charDraw font color x y g b (b :: ch).length (fun k => strAt (b :: ch) k)
      = ((x + font.w) % 256,
          OLED_SetBlock x y
            (fun k => font.chars (j * (4 + (font.h + 7) / 8 * font.w) + 4 + k))
            font.w font.h color g) := by
    simp only [charDraw, hfind, oneLen_of_small font hstride]
  have hlen2 : (b :: ch).length + rest.length + 3 < 65536 := by
    rw [List.length_append] at hlen
    exact hlen
  have hidx : (b :: ch).length % 65536 = (b :: ch).length := Nat.mod_eq_of_lt (by omega)
  obtain ⟨g', h1, h2⟩ := printLoop_shift font color y (b :: ch) rest hlen rest.length 0
    ((x + font.w) % 256)
    (OLED_SetBlock x y (fun k => font.chars (j * (4 + (font.h + 7) / 8 * font.w) + 4 + k))
      font.w font.h color g) 65535 loopFuel
    (by omega) (by omega) (by simp only [loopFuel]; omega)
  refine ⟨g', ?_, ?_⟩
  · unfold OLED_PrintString
    have hfuel : loopFuel = 65535 + 1 := rfl
    rw [hfuel, printLoop_step 65535 _ font color x y 0 g b (b :: ch).length
      (fun k => strAt (b :: ch) k) (by simp [strAt]) hb0 hn hn0
      (fun k hk => by rw [Nat.zero_add]; exact strAt_append_left _ _ _ hk), hdraw,
      Nat.zero_add, hidx]
    rw [Nat.add_zero] at h1
    exact h1
  · exact h2

/-- An instance of `OLED_PrintString_absent_sequence`: the sequence `C3 AA` is the key of no
entry of `font16`. -/
theorem OLED_PrintString_absent_sequence_font16 :
    ∃ g', OLED_PrintString 0 0 ((0xC3 :: [0xAA]) ++ [0x41]) font16 OLED_COLOR_NORMAL
        OLED_NewFrame = some g' ∧
      OLED_PrintString ((0 + font16.ascii.w) % 256) 0 [0x41] font16 OLED_COLOR_NORMAL
        (OLED_PrintASCIIChar 0 0 32 font16.ascii OLED_COLOR_NORMAL OLED_NewFrame) = some g' :=
  OLED_PrintString_absent_sequence 0 0 0xC3 [0xAA] [0x41] font16 OLED_COLOR_NORMAL
    OLED_NewFrame (by decide) (by decide) (by decide) (by decide) (by decide)

/-- An instance of `OLED_PrintString_first_match`: entry 1 of `font16` is the first one with
the key `C3 A9`. -/
theorem OLED_PrintString_first_match_font16 :
    ∃ g', OLED_PrintString 0 0 ((0xC3 :: [0xA9]) ++ [0x41]) font16 OLED_COLOR_NORMAL
        OLED_NewFrame = some g' ∧
      OLED_PrintString ((0 + font16.w) % 256) 0 [0x41] font16 OLED_COLOR_NORMAL
        (OLED_SetBlock 0 0
          (fun k => font16.chars (1 * (4 + (font16.h + 7) / 8 * font16.w) + 4 + k))
          font16.w font16.h OLED_COLOR_NORMAL OLED_NewFrame) = some g' :=
  OLED_PrintString_first_match 0 0 0xC3 1 [0xA9] [0x41] font16 OLED_COLOR_NORMAL
    OLED_NewFrame (by decide) (by decide) (by decide) (by decide) (by decide) (by decide)
    (by decide)

/-! ## The bounding box of a line: claim C20 -/

theorem plotAll_cons (p : Nat × Nat) (pts : List (Nat × Nat)) (color : OLED_ColorMode)
    (g : GRAM) :
    plotAll (p :: pts) color g = plotAll pts color (OLED_SetPixel p.1 p.2 color g) :=
  rfl

/-- A pixel that is none of the plotted points keeps its value. -/
theorem plotAll_pixel_of_not_mem (color : OLED_ColorMode) (px py : Nat) :
    ∀ (pts : List (Nat × Nat)) (g : GRAM), (∀ p ∈ pts, ¬ (p.1 = px ∧ p.2 = py)) →
      pixel (plotAll pts color g) px py = pixel g px py := by
  intro pts
  induction pts with
  | nil =>
    intro g _
    rfl
  | cons p pts ih =>
    intro g h
    rw [plotAll_cons, ih _ (fun q hq => h q (List.mem_cons_of_mem _ hq)), OLED_SetPixel_pixel]
    have hp := h p (List.mem_cons_self _ _)
    rw [if_neg (fun hc => hp ⟨hc.1.symm, hc.2.1.symm⟩)]

/-- The loop of `OLED_DrawLine` for `dx > dy`, with `m` steps left to `x2`: it returns after
`m` calls of `OLED_SetPixel`, one for each of the columns `x, x + ux, ..., x2 - ux`, all
of them in rows between `Y2 - uy * dy` and `Y2`.  The invariant is
`eps = t * dx - m * dy` with `-dx ≤ 2 * eps < dx`, where `t` counts the rows left to `Y2`. -/
theorem lineLoopX_trace (x2 dx dy ux uy Y2 : Int) (color : OLED_ColorMode)
    (hux : ux = 1 ∨ ux = -1) (huy : uy = 1 ∨ uy = -1) (hdy : 0 ≤ dy) (hdx : dy ≤ dx)
    (hdx0 : 0 < dx) (hx2 : 0 ≤ x2 ∧ x2 < 256) (hY2 : 0 ≤ Y2 ∧ Y2 < 256)
    (hY1 : 0 ≤ Y2 - uy * dy ∧ Y2 - uy * dy < 256) :
    ∀ (m : Nat) (t eps x y : Int) (fuel : Nat) (g : GRAM), m < fuel →
      x = x2 - ux * (m : Int) → 0 ≤ x → x < 256 → y = Y2 - uy * t →
      eps = t * dx - (m : Int) * dy → -dx ≤ 2 * eps → 2 * eps < dx → t ≤ dy →
      ∃ pts : List (Nat × Nat),
        lineLoopX fuel x2 dx dy ux uy color x y eps g = some (plotAll pts color g) ∧
        pts.map (fun p => (p.1 : Int)) = (List.range m).map (fun k : Nat => x + ux * (k : Int)) ∧
        ∀ p ∈ pts, ∃ t1 : Int, 0 ≤ t1 ∧ t1 ≤ dy ∧ (p.2 : Int) = Y2 - uy * t1 := by
  intro m
  induction m with
  | zero =>
    intro t eps x y fuel g hf hx _ _ _ _ _ _ _
    obtain ⟨f, rfl⟩ : ∃ f, fuel = f + 1 := ⟨fuel - 1, by omega⟩
    have hxe : x = x2 := by simpa using hx
    refine ⟨[], ?_, rfl, ?_⟩
    · rw [lineLoopX]
      simp only [hxe, ne_eq, not_true_eq_false, if_false]
      rfl
    · intro p hp
      cases hp
  | succ k ih =>
    intro t eps x y fuel g hf hx hx0 hx256 hy heps hlo hhi ht
    obtain ⟨f, rfl⟩ : ∃ f, fuel = f + 1 := ⟨fuel - 1, by omega⟩
    have hkm : ((k + 1 : Nat) : Int) * dy = (k : Int) * dy + dy := by
      push_cast
      ring
    have hkx : ux * ((k + 1 : Nat) : Int) = ux * (k : Int) + ux := by
      push_cast
      ring
    rw [hkm] at heps
    rw [hkx] at hx
    have hk0 : 0 ≤ (k : Int) * dy := mul_nonneg (by omega) hdy
    have hne : x ≠ x2 := by
      rcases hux with h | h <;> subst h <;> omega
    have ht0 : 0 ≤ t := by
      by_contra hneg
      have h1 : t * dx ≤ (-1) * dx := mul_le_mul_of_nonneg_right (by omega) (by omega)
      omega
    have hy0 : 0 ≤ y ∧ y < 256 := by
      have h1 : uy * t = t ∨ uy * t = -t := by
        rcases huy with h | h <;> subst h <;> simp
      have h2 : uy * dy = dy ∨ uy * dy = -dy := by
        rcases huy with h | h <;> subst h <;> simp
      rcases huy with h | h <;> subst h <;> omega
    have hxn : (x % 256).toNat = x.toNat := by omega
    have hyn : (y % 256).toNat = y.toNat := by omega
    have hxnext : x + ux = x2 - ux * (k : Int) := by omega
    have hxb : 0 ≤ x + ux ∧ x + ux < 256 := by
      rcases hux with h | h <;> subst h <;> omega
    have hhead : ((x.toNat : Nat) : Int) = x + ux * ((0 : Nat) : Int) := by
      simp
      omega
    have htail : (List.range k).map (fun j : Nat => x + ux + ux * (j : Int))
        = (List.range k).map ((fun j : Nat => x + ux * (j : Int)) ∘ Nat.succ) := by
      apply List.map_congr_left
      intro j _
      simp only [Function.comp, Nat.succ_eq_add_one]
      push_cast
      ring
    rw [lineLoopX]
    simp only [if_pos hne, hxn, hyn]
    by_cases hstep : (eps + dy) * 2 ≥ dx
    · have ht1 : (t - 1) * dx = t * dx - dx := by ring
      have hyu : uy * (t - 1) = uy * t - uy := by ring
      obtain ⟨pts, h1, h2, h3⟩ := ih (t - 1) (eps + dy - dx) (x + ux) (y + uy) f
        (OLED_SetPixel x.toNat y.toNat color g) (by omega) hxnext hxb.1 hxb.2
        (by rw [hyu]; omega) (by rw [ht1]; omega) (by omega) (by omega) (by omega)
      refine ⟨(x.toNat, y.toNat) :: pts, ?_, ?_, ?_⟩
      · simp only [if_pos hstep, plotAll_cons]
        exact h1
      · rw [List.map_cons, h2, List.range_succ_eq_map, List.map_cons, List.map_map, hhead,
          htail]
      · intro p hp
        rcases List.mem_cons.mp hp with rfl | hp
        · exact ⟨t, ht0, ht, by simp only; omega⟩
        · obtain ⟨t1, a, b, c⟩ := h3 p hp
          exact ⟨t1, a, b, c⟩
    · obtain ⟨pts, h1, h2, h3⟩ := ih t (eps + dy) (x + ux) y f
        (OLED_SetPixel x.toNat y.toNat color g) (by omega) hxnext hxb.1 hxb.2
        hy (by omega) (by omega) (by omega) ht
      refine ⟨(x.toNat, y.toNat) :: pts, ?_, ?_, ?_⟩
      · simp only [if_neg hstep, plotAll_cons]
        exact h1
      · rw [List.map_cons, h2, List.range_succ_eq_map, List.map_cons, List.map_map, hhead,
          htail]
      · intro p hp
        rcases List.mem_cons.mp hp with rfl | hp
        · exact ⟨t, ht0, ht, by simp only; omega⟩
        · obtain ⟨t1, a, b, c⟩ := h3 p hp
          exact ⟨t1, a, b, c⟩

/-- The loop of `OLED_DrawLine` for `dx ≤ dy`, with `m` steps left to `y2`: it returns after
`m` calls of `OLED_SetPixel`, one for each of the rows `y, y + uy, ..., y2 - uy`, all of
them in columns between `X2 - ux * dx` and `X2`. -/
theorem lineLoopY_trace (y2 dx dy ux uy X2 : Int) (color : OLED_ColorMode)
    (hux : ux = 1 ∨ ux = -1) (huy : uy = 1 ∨ uy = -1) (hdx : 0 ≤ dx) (hdy : dx ≤ dy)
    (hdy0 : 0 < dy) (hy2 : 0 ≤ y2 ∧ y2 < 256) (hX2 : 0 ≤ X2 ∧ X2 < 256)
    (hX1 : 0 ≤ X2 - ux * dx ∧ X2 - ux * dx < 256) :
    ∀ (m : Nat) (t eps x y : Int) (fuel : Nat) (g : GRAM), m < fuel →
      y = y2 - uy * (m : Int) → 0 ≤ y → y < 256 → x = X2 - ux * t →
      eps = t * dy - (m : Int) * dx → -dy ≤ 2 * eps → 2 * eps < dy → t ≤ dx →
      ∃ pts : List (Nat × Nat),
        lineLoopY fuel y2 dx dy ux uy color x y eps g = some (plotAll pts color g) ∧
        pts.map (fun p => (p.2 : Int))
          = (List.range m).map (fun k : Nat => y + uy * (k : Int)) ∧
        ∀ p ∈ pts, ∃ t1 : Int, 0 ≤ t1 ∧ t1 ≤ dx ∧ (p.1 : Int) = X2 - ux * t1 := by
  intro m
  induction m with
  | zero =>
    intro t eps x y fuel g hf hy _ _ _ _ _ _ _
    obtain ⟨f, rfl⟩ : ∃ f, fuel = f + 1 := ⟨fuel - 1, by omega⟩
    have hye : y = y2 := by simpa using hy
    refine ⟨[], ?_, rfl, ?_⟩
    · rw [lineLoopY]
      simp only [hye, ne_eq, not_true_eq_false, if_false]
      rfl
    · intro p hp
      cases hp
  | succ k ih =>
    intro t eps x y fuel g hf hy hy0 hy256 hx heps hlo hhi ht
    obtain ⟨f, rfl⟩ : ∃ f, fuel = f + 1 := ⟨fuel - 1, by omega⟩
    have hkm : ((k + 1 : Nat) : Int) * dx = (k : Int) * dx + dx := by
      push_cast
      ring
    have hky : uy * ((k + 1 : Nat) : Int) = uy * (k : Int) + uy := by
      push_cast
      ring
    rw [hkm] at heps
    rw [hky] at hy
    have hk0 : 0 ≤ (k : Int) * dx := mul_nonneg (by omega) hdx
    have hne : y ≠ y2 := by
      rcases huy with h | h <;> subst h <;> omega
    have ht0 : 0 ≤ t := by
      by_contra hneg
      have h1 : t * dy ≤ (-1) * dy := mul_le_mul_of_nonneg_right (by omega) (by omega)
      omega
    have hx0 : 0 ≤ x ∧ x < 256 := by
      have h1 : ux * t = t ∨ ux * t = -t := by
        rcases hux with h | h <;> subst h <;> simp
      have h2 : ux * dx = dx ∨ ux * dx = -dx := by
        rcases hux with h | h <;> subst h <;> simp
      rcases hux with h | h <;> subst h <;> omega
    have hxn : (x % 256).toNat = x.toNat := by omega
    have hyn : (y % 256).toNat = y.toNat := by omega
    have hynext : y + uy = y2 - uy * (k : Int) := by omega
    have hyb : 0 ≤ y + uy ∧ y + uy < 256 := by
      rcases huy with h | h <;> subst h <;> omega
    have hhead : ((y.toNat : Nat) : Int) = y + uy * ((0 : Nat) : Int) := by
      simp
      omega
    have htail : (List.range k).map (fun j : Nat => y + uy + uy * (j : Int))
        = (List.range k).map ((fun j : Nat => y + uy * (j : Int)) ∘ Nat.succ) := by
      apply List.map_congr_left
      intro j _
      simp only [Function.comp, Nat.succ_eq_add_one]
      push_cast
      ring
    rw [lineLoopY]
    simp only [if_pos hne, hxn, hyn]
    by_cases hstep : (eps + dx) * 2 ≥ dy
    · have ht1 : (t - 1) * dy = t * dy - dy := by ring
      have hxu : ux * (t - 1) = ux * t - ux := by ring
      obtain ⟨pts, h1, h2, h3⟩ := ih (t - 1) (eps + dx - dy) (x + ux) (y + uy) f
        (OLED_SetPixel x.toNat y.toNat color g) (by omega) hynext hyb.1 hyb.2
        (by rw [hxu]; omega) (by rw [ht1]; omega) (by omega) (by omega) (by omega)
      refine ⟨(x.toNat, y.toNat) :: pts, ?_, ?_, ?_⟩
      · simp only [if_pos hstep, plotAll_cons]
        exact h1
      · rw [List.map_cons, h2, List.range_succ_eq_map, List.map_cons, List.map_map, hhead,
          htail]
      · intro p hp
        rcases List.mem_cons.mp hp with rfl | hp
        · exact ⟨t, ht0, ht, by simp only; omega⟩
        · obtain ⟨t1, a, b, c⟩ := h3 p hp
          exact ⟨t1, a, b, c⟩
    · obtain ⟨pts, h1, h2, h3⟩ := ih t (eps + dx) x (y + uy) f
        (OLED_SetPixel x.toNat y.toNat color g) (by omega) hynext hyb.1 hyb.2
        hx (by omega) (by omega) (by omega) ht
      refine ⟨(x.toNat, y.toNat) :: pts, ?_, ?_, ?_⟩
      · simp only [if_neg hstep, plotAll_cons]
        exact h1
      · rw [List.map_cons, h2, List.range_succ_eq_map, List.map_cons, List.map_map, hhead,
          htail]
      · intro p hp
        rcases List.mem_cons.mp hp with rfl | hp
        · exact ⟨t, ht0, ht, by simp only; omega⟩
        · obtain ⟨t1, a, b, c⟩ := h3 p hp
          exact ⟨t1, a, b, c⟩

/-- The general branch of `OLED_DrawLine`. -/
theorem OLED_DrawLine_general_eq (x1 y1 x2 y2 : Nat) (color : OLED_ColorMode) (g : GRAM)
    (hx : x1 ≠ x2) (hy : y1 ≠ y2) :
    OLED_DrawLine x1 y1 x2 y2 color g
      = if absMacro ((x2 : Int) - x1) > absMacro ((y2 : Int) - y1) then
          lineLoopX loopFuel x2 (absMacro ((x2 : Int) - x1)) (absMacro ((y2 : Int) - y1))
            (unitStep ((x2 : Int) - x1)) (unitStep ((y2 : Int) - y1)) color x1 y1 0 g
        else
          lineLoopY loopFuel y2 (absMacro ((x2 : Int) - x1)) (absMacro ((y2 : Int) - y1))
            (unitStep ((x2 : Int) - x1)) (unitStep ((y2 : Int) - y1)) color x1 y1 0 g := by
  unfold OLED_DrawLine absMacro unitStep
  simp only [if_neg hx, if_neg hy]

/-- Step and absolute difference between two distinct 8-bit coordinates. -/
theorem unitStep_absMacro (a b : Nat) (h : a ≠ b) :
    (unitStep ((b : Int) - a) = 1 ∨ unitStep ((b : Int) - a) = -1) ∧
    unitStep ((b : Int) - a) = (if a < b then 1 else -1) ∧
    absMacro ((b : Int) - a) = ((max a b - min a b : Nat) : Int) ∧
    0 < absMacro ((b : Int) - a) ∧
    (a : Int) = (b : Int) - unitStep ((b : Int) - a) * absMacro ((b : Int) - a) := by
  unfold unitStep absMacro
  rcases Nat.lt_or_gt_of_ne h with hlt | hgt
  · have h1 : (b : Int) - a > 0 := by omega
    have h2 : ¬ ((b : Int) - a < 0) := by omega
    simp only [if_pos h1, if_neg h2, if_pos hlt]
    refine ⟨Or.inl (by norm_num), by norm_num, by omega, by omega, by omega⟩
  · have h1 : ¬ ((b : Int) - a > 0) := by omega
    have h2 : (b : Int) - a < 0 := by omega
    have h3 : ¬ a < b := by omega
    simp only [if_neg h1, if_pos h2, if_neg h3]
    refine ⟨Or.inr (by norm_num), by norm_num, by omega, by omega, by omega⟩

/-- The general (not axis-aligned) case of `OLED_DrawLine` for 8-bit end points: the call
returns after one call of `OLED_SetPixel` for each of the `max(|x2 - x1|, |y2 - y1|)` steps
along the major axis, the `k`-th of them at the major coordinate `k` steps from the start,
and every plotted point lies in the bounding box of the end points. -/
theorem OLED_DrawLine_general (x1 y1 x2 y2 : Nat) (color : OLED_ColorMode) (g : GRAM)
    (hx : x1 ≠ x2) (hy : y1 ≠ y2) (hx1 : x1 < 256) (hx2 : x2 < 256) (hy1 : y1 < 256)
    (hy2 : y2 < 256) :
    ∃ pts : List (Nat × Nat),
      OLED_DrawLine x1 y1 x2 y2 color g = some (plotAll pts color g) ∧
      (∀ p ∈ pts, min x1 x2 ≤ p.1 ∧ p.1 ≤ max x1 x2 ∧ min y1 y2 ≤ p.2 ∧ p.2 ≤ max y1 y2) ∧
      pts.length = max (max x1 x2 - min x1 x2) (max y1 y2 - min y1 y2) ∧
      (max y1 y2 - min y1 y2 < max x1 x2 - min x1 x2 →
        pts.map (fun p => (p.1 : Int))
          = (List.range (max x1 x2 - min x1 x2)).map
              (fun k : Nat => (x1 : Int) + (if x1 < x2 then 1 else -1) * (k : Int))) ∧
      (max x1 x2 - min x1 x2 ≤ max y1 y2 - min y1 y2 →
        pts.map (fun p => (p.2 : Int))
          = (List.range (max y1 y2 - min y1 y2)).map
              (fun k : Nat => (y1 : Int) + (if y1 < y2 then 1 else -1) * (k : Int))) := by
  obtain ⟨hux, huxv, hdxv, hdx0, hx1e⟩ := unitStep_absMacro x1 x2 hx
  obtain ⟨huy, huyv, hdyv, hdy0, hy1e⟩ := unitStep_absMacro y1 y2 hy
  rw [OLED_DrawLine_general_eq x1 y1 x2 y2 color g hx hy]
  generalize unitStep ((x2 : Int) - x1) = ux at *
  generalize unitStep ((y2 : Int) - y1) = uy at *
  generalize absMacro ((x2 : Int) - x1) = dx at *
  generalize absMacro ((y2 : Int) - y1) = dy at *
  generalize hmx : max x1 x2 - min x1 x2 = mx at *
  generalize hmy : max y1 y2 - min y1 y2 = my at *
  have hmxv : mx = x2 - x1 ∨ mx = x1 - x2 := by omega
  have hmyv : my = y2 - y1 ∨ my = y1 - y2 := by omega
  have hxp : ux * dx = dx ∨ ux * dx = -dx := by
    rcases hux with h | h <;> subst h <;> simp
  have hyp : uy * dy = dy ∨ uy * dy = -dy := by
    rcases huy with h | h <;> subst h <;> simp
  by_cases hmaj : dx > dy
  · rw [if_pos hmaj]
    obtain ⟨pts, h1, h2, h3⟩ := lineLoopX_trace x2 dx dy ux uy y2 color hux huy (by omega)
      (by omega) hdx0 (by omega) (by omega) (by omega) mx dy 0 x1 y1 loopFuel g
      (by simp only [loopFuel]; omega) (by rw [← hdxv]; exact hx1e) (by omega) (by omega)
      hy1e (by rw [← hdxv]; ring) (by omega) (by omega) (le_refl _)
    have hlen : pts.length = mx := by
      have := congrArg List.length h2
      simpa using this
    refine ⟨pts, h1, ?_, ?_, ?_, ?_⟩
    · intro p hp
      obtain ⟨t1, ht0, ht1, hp2⟩ := h3 p hp
      have hmem : (p.1 : Int) ∈ pts.map (fun p => (p.1 : Int)) := List.mem_map_of_mem _ hp
      rw [h2] at hmem
      obtain ⟨k, hk, hkv⟩ := List.mem_map.mp hmem
      have hk' : k < mx := List.mem_range.mp hk
      have hyt : uy * t1 = t1 ∨ uy * t1 = -t1 := by
        rcases huy with h | h <;> subst h <;> simp
      have hxk : ux * (k : Int) = k ∨ ux * (k : Int) = -k := by
        rcases hux with h | h <;> subst h <;> simp
      rcases hux with h | h <;> rcases huy with h' | h' <;> subst h <;> subst h' <;>
        simp only [one_mul, neg_mul] at * <;> omega
    · rw [hlen]
      omega
    · intro _
      rw [h2, huxv]
    · intro hle
      omega
  · rw [if_neg hmaj]
    obtain ⟨pts, h1, h2, h3⟩ := lineLoopY_trace y2 dx dy ux uy x2 color hux huy (by omega)
      (by omega) hdy0 (by omega) (by omega) (by omega) my dx 0 x1 y1 loopFuel g
      (by simp only [loopFuel]; omega) (by rw [← hdyv]; exact hy1e) (by omega) (by omega)
      hx1e (by rw [← hdyv]; ring) (by omega) (by omega) (le_refl _)
    have hlen : pts.length = my := by
      have := congrArg List.length h2
      simpa using this
    refine ⟨pts, h1, ?_, ?_, ?_, ?_⟩
    · intro p hp
      obtain ⟨t1, ht0, ht1, hp1⟩ := h3 p hp
      have hmem : (p.2 : Int) ∈ pts.map (fun p => (p.2 : Int)) := List.mem_map_of_mem _ hp
      rw [h2] at hmem
      obtain ⟨k, hk, hkv⟩ := List.mem_map.mp hmem
      have hk' : k < my := List.mem_range.mp hk
      rcases hux with h | h <;> rcases huy with h' | h' <;> subst h <;> subst h' <;>
        simp only [one_mul, neg_mul] at * <;> omega
    · rw [hlen]
      omega
    · intro hlt
      omega
    · intro _
      rw [h2, huyv]

/-- C20: for end points inside the display (`x1, x2 < 128`, `y1, y2 < 64`),
`OLED_DrawLine(x1, y1, x2, y2, mode)` returns, and every pixel outside the bounding box
`[min x1 x2, max x1 x2] × [min y1 y2, max y1 y2]` keeps its value; in the general case
(`x1 ≠ x2`, `y1 ≠ y2`) the call is a sequence of exactly `max(|x2 - x1|, |y2 - y1|)` calls
of `OLED_SetPixel`, all inside the box, the `k`-th at the major coordinate `k` steps from
the start: one pixel for each step along the major axis. -/
theorem C20_OLED_DrawLine_bounding_box (x1 y1 x2 y2 : Nat) (color : OLED_ColorMode)
    (g : GRAM) (hx1 : x1 < 128) (hx2 : x2 < 128) (hy1 : y1 < 64) (hy2 : y2 < 64) :
    ∃ g', OLED_DrawLine x1 y1 x2 y2 color g = some g' ∧
      (∀ px py,
        ¬ (min x1 x2 ≤ px ∧ px ≤ max x1 x2 ∧ min y1 y2 ≤ py ∧ py ≤ max y1 y2) →
        pixel g' px py = pixel g px py) ∧
      (x1 ≠ x2 → y1 ≠ y2 →
        ∃ pts : List (Nat × Nat), g' = plotAll pts color g ∧
          pts.length = max (max x1 x2 - min x1 x2) (max y1 y2 - min y1 y2) ∧
          (∀ p ∈ pts,
            min x1 x2 ≤ p.1 ∧ p.1 ≤ max x1 x2 ∧ min y1 y2 ≤ p.2 ∧ p.2 ≤ max y1 y2) ∧
          (max y1 y2 - min y1 y2 < max x1 x2 - min x1 x2 →
            pts.map (fun p => (p.1 : Int))
              = (List.range (max x1 x2 - min x1 x2)).map
                  (fun k : Nat => (x1 : Int) + (if x1 < x2 then 1 else -1) * (k : Int))) ∧
          (max x1 x2 - min x1 x2 ≤ max y1 y2 - min y1 y2 →
            pts.map (fun p => (p.2 : Int))
              = (List.range (max y1 y2 - min y1 y2)).map
                  (fun k : Nat => (y1 : Int) + (if y1 < y2 then 1 else -1) * (k : Int)))) := by
  by_cases hxe : x1 = x2
  · subst hxe
    have ea : (if y1 > y2 then y2 else y1) = min y1 y2 := by
      split <;> omega
    have eb : (if y1 > y2 then y1 else y2) = max y1 y2 := by
      split <;> omega
    obtain ⟨g', h1, h2⟩ := lineLoopV_spec x1 (max y1 y2) color (by omega)
      (max y1 y2 + 1 - min y1 y2) (min y1 y2) loopFuel g (by omega)
      (by simp only [loopFuel]; omega)
    refine ⟨g', ?_, ?_, fun h _ => absurd rfl h⟩
    · unfold OLED_DrawLine
      simp only [if_true, ea, eb]
      exact h1
    · intro px py hn
      rw [h2, if_neg (by omega)]
  · by_cases hye : y1 = y2
    · subst hye
      have ea : (if x1 > x2 then x2 else x1) = min x1 x2 := by
        split <;> omega
      have eb : (if x1 > x2 then x1 else x2) = max x1 x2 := by
        split <;> omega
      obtain ⟨g', h1, h2⟩ := lineLoopH_spec (max x1 x2) y1 color (by omega)
        (max x1 x2 + 1 - min x1 x2) (min x1 x2) loopFuel g (by omega)
        (by simp only [loopFuel]; omega)
      refine ⟨g', ?_, ?_, fun _ h => absurd rfl h⟩
      · unfold OLED_DrawLine
        simp only [if_neg hxe, if_true, ea, eb]
        exact h1
      · intro px py hn
        rw [h2, if_neg (by omega)]
    · obtain ⟨pts, h1, hbox, hlen, hX, hY⟩ := OLED_DrawLine_general x1 y1 x2 y2 color g hxe hye
        (by omega) (by omega) (by omega) (by omega)
      refine ⟨plotAll pts color g, h1, ?_, fun _ _ => ⟨pts, rfl, hlen, hbox, hX, hY⟩⟩
      intro px py hn
      apply plotAll_pixel_of_not_mem
      rintro p hp ⟨e1, e2⟩
      apply hn
      rw [← e1, ← e2]
      exact hbox p hp

/-- Witness of C20: the line from `(9, 20)` to `(2, 17)`, which runs to the left and
upwards with the `x` axis as major axis. -/
theorem C20_OLED_DrawLine_bounding_box_witness :
    ∃ g', OLED_DrawLine 9 20 2 17 OLED_COLOR_NORMAL OLED_NewFrame = some g' ∧
      (∀ px py,
        ¬ (min 9 2 ≤ px ∧ px ≤ max 9 2 ∧ min 20 17 ≤ py ∧ py ≤ max 20 17) →
        pixel g' px py = pixel OLED_NewFrame px py) ∧
      ((9 : Nat) ≠ 2 → (20 : Nat) ≠ 17 →
        ∃ pts : List (Nat × Nat), g' = plotAll pts OLED_COLOR_NORMAL OLED_NewFrame ∧
          pts.length = max (max 9 2 - min 9 2) (max 20 17 - min 20 17) ∧
          (∀ p ∈ pts,
            min 9 2 ≤ p.1 ∧ p.1 ≤ max 9 2 ∧ min 20 17 ≤ p.2 ∧ p.2 ≤ max 20 17) ∧
          (max 20 17 - min 20 17 < max 9 2 - min 9 2 →
            pts.map (fun p => (p.1 : Int))
              = (List.range (max 9 2 - min 9 2)).map
                  (fun k : Nat => ((9 : Nat) : Int) + (if 9 < 2 then 1 else -1) * (k : Int))) ∧
          (max 9 2 - min 9 2 ≤ max 20 17 - min 20 17 →
            pts.map (fun p => (p.2 : Int))
              = (List.range (max 20 17 - min 20 17)).map
                  (fun k : Nat =>
                    ((20 : Nat) : Int) + (if 20 < 17 then 1 else -1) * (k : Int)))) :=
  C20_OLED_DrawLine_bounding_box 9 20 2 17 OLED_COLOR_NORMAL OLED_NewFrame
    (by decide) (by decide) (by decide) (by decide)

/-- What C13 says holds for end points below 255: `OLED_DrawLine` returns. -/
theorem OLED_DrawLine_returns (x1 y1 x2 y2 : Nat) (color : OLED_ColorMode) (g : GRAM)
    (hx1 : x1 < 255) (hx2 : x2 < 255) (hy1 : y1 < 255) (hy2 : y2 < 255) :
    ∃ g', OLED_DrawLine x1 y1 x2 y2 color g = some g' := by
  by_cases hxe : x1 = x2
  · subst hxe
    have ea : (if y1 > y2 then y2 else y1) = min y1 y2 := by
      split <;> omega
    have eb : (if y1 > y2 then y1 else y2) = max y1 y2 := by
      split <;> omega
    obtain ⟨g', h1, _⟩ := lineLoopV_spec x1 (max y1 y2) color (by omega)
      (max y1 y2 + 1 - min y1 y2) (min y1 y2) loopFuel g (by omega)
      (by simp only [loopFuel]; omega)
    refine ⟨g', ?_⟩
    unfold OLED_DrawLine
    simp only [if_true, ea, eb]
    exact h1
  · by_cases hye : y1 = y2
    · subst hye
      have ea : (if x1 > x2 then x2 else x1) = min x1 x2 := by
        split <;> omega
      have eb : (if x1 > x2 then x1 else x2) = max x1 x2 := by
        split <;> omega
      obtain ⟨g', h1, _⟩ := lineLoopH_spec (max x1 x2) y1 color (by omega)
        (max x1 x2 + 1 - min x1 x2) (min x1 x2) loopFuel g (by omega)
        (by simp only [loopFuel]; omega)
      refine ⟨g', ?_⟩
      unfold OLED_DrawLine
      simp only [if_neg hxe, if_true, ea, eb]
      exact h1
    · obtain ⟨pts, h1, _⟩ := OLED_DrawLine_general x1 y1 x2 y2 color g hxe hye
        (by omega) (by omega) (by omega) (by omega)
      exact ⟨_, h1⟩

/-- What `OLED_DrawCircle(x, y, 0, color)` does for a centre inside the display: it returns
having written the centre and, when it lies inside the display, the pixel `(x + 1, y - 1)`. -/
theorem OLED_DrawCircle_radius_zero (x y : Nat) (color : OLED_ColorMode) (g : GRAM)
    (hx : x < 128) (hy : y < 64) :
    ∃ g', OLED_DrawCircle x y 0 color g = some g' ∧
      ∀ px py, pixel g' px py
        = if (px = x ∧ py = y) ∨ (px = x + 1 ∧ py + 1 = y ∧ x + 1 < 128)
          then decide (color = OLED_COLOR_NORMAL) else pixel g px py := by
  have hf : loopFuel = 65534 + 1 + 1 := rfl
  have e1 : toU8 ((x : Int) - 0) = x := by unfold toU8; omega
  have e2 : toU8 ((x : Int) + 0) = x := by unfold toU8; omega
  have e3 : toU8 ((y : Int) - 0) = y := by unfold toU8; omega
  have e4 : toU8 ((y : Int) + 0) = y := by unfold toU8; omega
  have e5 : toU8 ((x : Int) + (0 + 1)) = x + 1 := by unfold toU8; omega
  have e6 : toU8 ((y : Int) + (0 - 1)) = (y + 255) % 256 := by unfold toU8; omega
  refine ⟨OLED_SetPixel (x + 1) ((y + 255) % 256) color
    (OLED_SetPixel x y color (OLED_SetPixel x y color (OLED_SetPixel x y color
    (OLED_SetPixel x y color (OLED_SetPixel x y color (OLED_SetPixel x y color
    (OLED_SetPixel x y color (OLED_SetPixel x y color (OLED_SetPixel x y color g))))))))),
    ?_, ?_⟩
  · unfold OLED_DrawCircle
    rw [hf, circleLoop]
    have h0 : ((0 : Nat) : Int) = 0 := rfl
    have hdi : ¬ ((3 : Int) - 0 * 2 < 0) := by decide
    have hle : (0 : Int) ≤ 0 := le_refl _
    simp only [h0, hle, if_true, hdi, if_false, e1, e2, e3, e4, e5, e6]
    rw [circleLoop]
    have hgt : ¬ ((0 : Int) + 1 ≤ 0 - 1) := by decide
    simp only [hgt, if_false]
  · intro px py
    simp only [OLED_SetPixel_pixel]
    by_cases hA : px = x + 1 ∧ py = (y + 255) % 256 ∧ x + 1 < 128 ∧ (y + 255) % 256 < 64
    · rw [if_pos hA, if_pos (by omega)]
    · rw [if_neg hA]
      by_cases hB : px = x ∧ py = y ∧ x < 128 ∧ y < 64
      · simp only [if_pos hB]
        rw [if_pos (by omega)]
      · simp only [if_neg hB]
        rw [if_neg (by omega)]

end OLED
